import Mathlib

/-!
Shallow embedding of `src/extract_logs.py`: a one-shot batch pipeline that
queries a SQLite table `user_logs` for one user, JSON-decodes each row's
`event_data` column, groups the rows by the `system`/`taskNumber` fields of
the decoded payload, serializes one JSON file per group, and prints a
summary.  Python runtime values reachable in this program are modelled by
`PyVal`, SQLite column values by `SqlValue`, and each pipeline stage by an
executable Lean function mirroring the corresponding Python function.
-/

namespace ExtractLogs

/-- Python runtime values that can appear in this program: the results of
`json.loads` (`None`, `bool`, `int`, `float`, `str`, `list`, `dict`), plus
`bytes` (a BLOB column read from SQLite, which can end up inside the
fallback payload `\x7b'raw': <original>\x7d`).  Python floats are carried as their
decimal lexeme (the program never computes with them); this is exact for
every claim below, none of which involves a float. -/
inductive PyVal : Type where
  | null : PyVal
  | bool (b : Bool) : PyVal
  | int (n : Int) : PyVal
  | float (lex : String) : PyVal
  | str (s : String) : PyVal
  | bytes (bs : List Nat) : PyVal
  | list (xs : List PyVal) : PyVal
  | dict (kvs : List (String × PyVal)) : PyVal

/-- `d.get(k, default)` on a Python dict represented as an association list
(keys are unique in every dict this program builds, so first-match lookup
is dict lookup). -/
def dictGet (kvs : List (String × PyVal)) (k : String) (dflt : PyVal) : PyVal :=
  match kvs.lookup k with
  | some v => v
  | none => dflt

/-- `d[k] = v` on a Python dict: replace the value in place if the key is
present (keeping its original position, as CPython dicts do), else append. -/
def dictInsert (kvs : List (String × PyVal)) (k : String) (v : PyVal) :
    List (String × PyVal) :=
  match kvs with
  | [] => [(k, v)]
  | (k', v') :: rest =>
      if k' = k then (k', v) :: rest else (k', v') :: dictInsert rest k v

/-! ### Stable sorting, modelling Python's `sorted`

CPython's `sorted` is a stable sort.  `sortBy le` is a stable insertion
sort: an element is inserted before the first already-placed element `y`
with `le x y`, so on ties the earlier element stays first, exactly the
contract of `sorted`. -/

/-- Insert `x` (which arrived before everything in the list) into an
already sorted list, keeping it before every element it ties with. -/
def insertOrd (le : α → α → Bool) (x : α) : List α → List α
  | [] => [x]
  | y :: ys => if le x y then x :: y :: ys else y :: insertOrd le x ys

/-- Stable sort, modelling Python's `sorted`. -/
def sortBy (le : α → α → Bool) : List α → List α
  | [] => []
  | x :: xs => insertOrd le x (sortBy le xs)

/-! ### Code-point string order

Python compares `str` values code point by code point, and SQLite's
default BINARY collation compares TEXT values bytewise — for UTF-8 both
agree with code-point lexicographic order.  `strLe` implements it
directly (Lean's `String` order instances are not kernel-reducible). -/

def strLeChars : List Char → List Char → Bool
  | [], _ => true
  | _ :: _, [] => false
  | a :: as, b :: bs =>
      if a.toNat < b.toNat then true
      else if a.toNat = b.toNat then strLeChars as bs
      else false

def strLe (a b : String) : Bool :=
  strLeChars a.data b.data

/-! ### JSON serialization, modelling `json.dump`

CPython's `json.dump` with default arguments uses `ensure_ascii=True` and
item/key separators `', '` and `': '`, producing a single line that
contains a space after every comma and after every colon.  With
`indent=2` the item separator becomes `','` and every array element /
object member starts on its own line indented by two more spaces than its
container; `sort_keys=True` sorts the keys of every object. -/

/-- Lower-case hexadecimal digit, as used by CPython's `\uXXXX` escapes. -/
def hexDigitChar (n : Nat) : Char :=
  if n < 10 then Char.ofNat (48 + n) else Char.ofNat (87 + n)

/-- Four lower-case hex digits. -/
def hex4 (n : Nat) : String :=
  String.mk [hexDigitChar (n / 4096 % 16), hexDigitChar (n / 256 % 16),
             hexDigitChar (n / 16 % 16), hexDigitChar (n % 16)]

/-- CPython `json` string escaping with `ensure_ascii=True`: `"`, `\`,
and everything outside printable ASCII is escaped; BMP characters as one
`\uXXXX`, astral characters as a surrogate pair. -/
def escapeChar (c : Char) : String :=
  if c = Char.ofNat 34 then String.mk [Char.ofNat 92, Char.ofNat 34]
  else if c = Char.ofNat 92 then String.mk [Char.ofNat 92, Char.ofNat 92]
  else if c.toNat = 10 then String.mk [Char.ofNat 92, 'n']
  else if c.toNat = 9 then String.mk [Char.ofNat 92, 't']
  else if c.toNat = 13 then String.mk [Char.ofNat 92, 'r']
  else if c.toNat = 8 then String.mk [Char.ofNat 92, 'b']
  else if c.toNat = 12 then String.mk [Char.ofNat 92, 'f']
  else if 32 ≤ c.toNat && c.toNat ≤ 126 then String.mk [c]
  else if c.toNat < 65536 then String.mk [Char.ofNat 92, 'u'] ++ hex4 c.toNat
  else
    String.mk [Char.ofNat 92, 'u'] ++ hex4 (55296 + (c.toNat - 65536) / 1024) ++
      String.mk [Char.ofNat 92, 'u'] ++ hex4 (56320 + (c.toNat - 65536) % 1024)

/-- A JSON string literal: the escaped characters between double quotes. -/
def encodeJsonString (s : String) : String :=
  String.mk [Char.ofNat 34] ++ String.join (s.data.map escapeChar) ++
    String.mk [Char.ofNat 34]

/-- Sequence a list of optional strings; `none` models the `TypeError`
that `json.dump` raises on a value (here: `bytes`) it cannot serialize. -/
def seqOptions : List (Option String) → Option (List String)
  | [] => some []
  | none :: _ => none
  | some s :: rest => (seqOptions rest).map (fun parts => s :: parts)

/-- `n` spaces. -/
def nspaces (n : Nat) : String :=
  String.mk (List.replicate n ' ')

/-- Byte-order comparison of keys, as Python's `<` on `str` (code-point
lexicographic, which is exactly Lean's `≤` on `String`). -/
def keyLe (a b : String × PyVal) : Bool :=
  strLe a.1 b.1

/-- `sep.join(parts)`: the parts joined by the separator. -/
def joinSep (sep : String) : List String → String
  | [] => ""
  | [s] => s
  | s :: rest => s ++ sep ++ joinSep sep rest

/-! `json.dump(v, f)` with default arguments: single line, separators
`', '` and `': '`, `ensure_ascii` escaping; `none` models the `TypeError`
CPython raises on a value (here: `bytes`) it cannot serialize. -/
mutual

def dumpsDefault : PyVal → Option String
  | .null => some "null"
  | .bool b => some (if b then "true" else "false")
  | .int n => some (toString n)
  | .float lex => some lex
  | .str s => some (encodeJsonString s)
  | .bytes _ => none
  | .list xs =>
      (seqOptions (dumpsDefaultList xs)).map
        (fun parts => "[" ++ joinSep ", " parts ++ "]")
  | .dict kvs =>
      (seqOptions (dumpsDefaultKvs kvs)).map
        (fun parts =>
          String.mk [Char.ofNat 123] ++ joinSep ", " parts ++
            String.mk [Char.ofNat 125])

/-- The serialized elements of an array, in order. -/
def dumpsDefaultList : List PyVal → List (Option String)
  | [] => []
  | v :: vs => dumpsDefault v :: dumpsDefaultList vs

/-- The serialized `"key": value` members of an object, in order. -/
def dumpsDefaultKvs : List (String × PyVal) → List (Option String)
  | [] => []
  | (k, v) :: kvs =>
      ((dumpsDefault v).map (fun s => encodeJsonString k ++ ": " ++ s)) ::
        dumpsDefaultKvs kvs

end

/-- Sequence rendered `(key, value)` members; `none` as soon as one value
was unserializable. -/
def seqPairs : List (String × Option String) → Option (List (String × String))
  | [] => some []
  | (_, none) :: _ => none
  | (k, some s) :: rest => (seqPairs rest).map (fun ps => (k, s) :: ps)

/-! `json.dump(v, f, indent=2, sort_keys=True)`: each object's members are
sorted by key before rendering, every member/element starts on its own
line, indented two spaces more than its container, and the item separator
is a bare comma (its trailing space replaced by the newline).  CPython
sorts the items and then renders each value; here each value is rendered
and the `(key, rendered value)` pairs are then sorted by key — the same
output, since rendering keeps the key and `sorted` is stable
(`sortBy_map`), and this shape makes the recursion structural. -/
mutual

def dumpsPretty (level : Nat) : PyVal → Option String
  | .null => some "null"
  | .bool b => some (if b then "true" else "false")
  | .int n => some (toString n)
  | .float lex => some lex
  | .str s => some (encodeJsonString s)
  | .bytes _ => none
  | .list xs =>
      if xs.isEmpty then some "[]" else
      (seqOptions (dumpsPrettyList (level + 1) xs)).map
        (fun parts =>
          "[" ++ "\n" ++ nspaces (2 * (level + 1)) ++
            joinSep ("," ++ "\n" ++ nspaces (2 * (level + 1))) parts ++
            "\n" ++ nspaces (2 * level) ++ "]")
  | .dict kvs =>
      if kvs.isEmpty then some (String.mk [Char.ofNat 123, Char.ofNat 125]) else
      (seqPairs (sortBy (fun a b => strLe a.1 b.1)
          (dumpsPrettyKvs (level + 1) kvs))).map
        (fun pairs =>
          String.mk [Char.ofNat 123] ++ "\n" ++ nspaces (2 * (level + 1)) ++
            joinSep ("," ++ "\n" ++ nspaces (2 * (level + 1)))
              (pairs.map (fun p => encodeJsonString p.1 ++ ": " ++ p.2)) ++
            "\n" ++ nspaces (2 * level) ++ String.mk [Char.ofNat 125])

def dumpsPrettyList (level : Nat) : List PyVal → List (Option String)
  | [] => []
  | v :: vs => dumpsPretty level v :: dumpsPrettyList level vs

def dumpsPrettyKvs (level : Nat) : List (String × PyVal) → List (String × Option String)
  | [] => []
  | (k, v) :: kvs => (k, dumpsPretty level v) :: dumpsPrettyKvs level kvs

end

/-! Like `dumpsPretty` but without the key sorting step: used to state, as
a theorem, that `sort_keys=True` is the same as recursively key-sorting
every object of the value first (`sortKeysRec`) and then rendering it
as-is — i.e. the pretty printer sorts object keys at every nesting
level. -/
mutual

def dumpsPrettyUnsorted (level : Nat) : PyVal → Option String
  | .null => some "null"
  | .bool b => some (if b then "true" else "false")
  | .int n => some (toString n)
  | .float lex => some lex
  | .str s => some (encodeJsonString s)
  | .bytes _ => none
  | .list xs =>
      if xs.isEmpty then some "[]" else
      (seqOptions (dumpsPrettyUnsortedList (level + 1) xs)).map
        (fun parts =>
          "[" ++ "\n" ++ nspaces (2 * (level + 1)) ++
            joinSep ("," ++ "\n" ++ nspaces (2 * (level + 1))) parts ++
            "\n" ++ nspaces (2 * level) ++ "]")
  | .dict kvs =>
      if kvs.isEmpty then some (String.mk [Char.ofNat 123, Char.ofNat 125]) else
      (seqPairs (dumpsPrettyUnsortedKvs (level + 1) kvs)).map
        (fun pairs =>
          String.mk [Char.ofNat 123] ++ "\n" ++ nspaces (2 * (level + 1)) ++
            joinSep ("," ++ "\n" ++ nspaces (2 * (level + 1)))
              (pairs.map (fun p => encodeJsonString p.1 ++ ": " ++ p.2)) ++
            "\n" ++ nspaces (2 * level) ++ String.mk [Char.ofNat 125])

def dumpsPrettyUnsortedList (level : Nat) : List PyVal → List (Option String)
  | [] => []
  | v :: vs => dumpsPrettyUnsorted level v :: dumpsPrettyUnsortedList level vs

def dumpsPrettyUnsortedKvs (level : Nat) :
    List (String × PyVal) → List (String × Option String)
  | [] => []
  | (k, v) :: kvs => (k, dumpsPrettyUnsorted level v) :: dumpsPrettyUnsortedKvs level kvs

end

/-! Recursively sort the keys of every object inside a value. -/
mutual

def sortKeysRec : PyVal → PyVal
  | .null => .null
  | .bool b => .bool b
  | .int n => .int n
  | .float lex => .float lex
  | .str s => .str s
  | .bytes bs => .bytes bs
  | .list xs => .list (sortKeysList xs)
  | .dict kvs => .dict (sortBy keyLe (sortKeysKvs kvs))

def sortKeysList : List PyVal → List PyVal
  | [] => []
  | v :: vs => sortKeysRec v :: sortKeysList vs

def sortKeysKvs : List (String × PyVal) → List (String × PyVal)
  | [] => []
  | (k, v) :: kvs => (k, sortKeysRec v) :: sortKeysKvs kvs

end

/-! ### JSON parsing, modelling `json.loads`

A recursive-descent parser for the grammar accepted by CPython's strict
`json.loads`: the RFC 8259 grammar plus the constants `NaN`, `Infinity`
and `-Infinity`.  Numbers without a fraction or exponent become Python
`int`s; others become `float`s (carried as their lexeme).  Duplicate
object keys follow dict-assignment semantics (last value wins, first
position kept).  A lone surrogate in a `\uXXXX` escape, which CPython
stores as an unpaired surrogate code unit, is represented by U+FFFD
(Lean's `Char` cannot hold surrogates); no claim below involves one.
The `fuel` argument only bounds recursion depth; `jsonParse` supplies
more fuel than any input can consume. -/

/-- JSON whitespace: space, tab, newline, carriage return. -/
def jsonWsChar (c : Char) : Bool :=
  c = ' ' || c.toNat = 9 || c.toNat = 10 || c.toNat = 13

def skipWs : List Char → List Char
  | [] => []
  | c :: cs => if jsonWsChar c then skipWs cs else c :: cs

def hexVal (c : Char) : Option Nat :=
  if 48 ≤ c.toNat ∧ c.toNat ≤ 57 then some (c.toNat - 48)
  else if 97 ≤ c.toNat ∧ c.toNat ≤ 102 then some (c.toNat - 87)
  else if 65 ≤ c.toNat ∧ c.toNat ≤ 70 then some (c.toNat - 55)
  else none

def parseHex4 : List Char → Option (Nat × List Char)
  | a :: b :: c :: d :: rest =>
      match hexVal a, hexVal b, hexVal c, hexVal d with
      | some ha, some hb, some hc, some hd =>
          some (ha * 4096 + hb * 256 + hc * 16 + hd, rest)
      | _, _, _, _ => none
  | _ => none

/-- Prepend a character to the pending string-body result. -/
def mapCons (c : Char) (r : Option (List Char × List Char)) :
    Option (List Char × List Char) :=
  r.map (fun p => (c :: p.1, p.2))

/-- Body of a JSON string literal, after the opening quote; returns the
decoded characters and the input after the closing quote. -/
def parseStringBody (fuel : Nat) (cs : List Char) :
    Option (List Char × List Char) :=
  match fuel with
  | 0 => none
  | fuel + 1 =>
    match cs with
    | [] => none
    | c :: rest =>
      if c = Char.ofNat 34 then some ([], rest)
      else if c = Char.ofNat 92 then
        match rest with
        | [] => none
        | e :: rest2 =>
          if e = Char.ofNat 34 then mapCons (Char.ofNat 34) (parseStringBody fuel rest2)
          else if e = Char.ofNat 92 then mapCons (Char.ofNat 92) (parseStringBody fuel rest2)
          else if e = '/' then mapCons '/' (parseStringBody fuel rest2)
          else if e = 'b' then mapCons (Char.ofNat 8) (parseStringBody fuel rest2)
          else if e = 'f' then mapCons (Char.ofNat 12) (parseStringBody fuel rest2)
          else if e = 'n' then mapCons (Char.ofNat 10) (parseStringBody fuel rest2)
          else if e = 'r' then mapCons (Char.ofNat 13) (parseStringBody fuel rest2)
          else if e = 't' then mapCons (Char.ofNat 9) (parseStringBody fuel rest2)
          else if e = 'u' then
            match parseHex4 rest2 with
            | none => none
            | some (n, rest3) =>
              if 55296 ≤ n ∧ n ≤ 56319 then
                match rest3 with
                | c2 :: e2 :: rest4 =>
                  if c2 = Char.ofNat 92 ∧ e2 = 'u' then
                    match parseHex4 rest4 with
                    | some (m, rest5) =>
                        if 56320 ≤ m ∧ m ≤ 57343 then
                          mapCons (Char.ofNat (65536 + (n - 55296) * 1024 + (m - 56320)))
                            (parseStringBody fuel rest5)
                        else mapCons (Char.ofNat 65533) (parseStringBody fuel rest3)
                    | none => mapCons (Char.ofNat 65533) (parseStringBody fuel rest3)
                  else mapCons (Char.ofNat 65533) (parseStringBody fuel rest3)
                | _ => mapCons (Char.ofNat 65533) (parseStringBody fuel rest3)
              else if 56320 ≤ n ∧ n ≤ 57343 then
                mapCons (Char.ofNat 65533) (parseStringBody fuel rest3)
              else mapCons (Char.ofNat n) (parseStringBody fuel rest3)
          else none
      else if c.toNat < 32 then none
      else mapCons c (parseStringBody fuel rest)

def isDigit (c : Char) : Bool :=
  48 ≤ c.toNat && c.toNat ≤ 57

def digitsToNat (ds : List Char) : Nat :=
  ds.foldl (fun acc c => acc * 10 + (c.toNat - 48)) 0

/-- Match a literal character sequence. -/
def matchLit (lit : List Char) (cs : List Char) : Option (List Char) :=
  match lit, cs with
  | [], rest => some rest
  | p :: ps, c :: rest => if c = p then matchLit ps rest else none
  | _ :: _, [] => none

/-- A JSON number, as matched by CPython's `NUMBER_RE`:
`-?(0|[1-9][0-9]*)(\.[0-9]+)?([eE][+-]?[0-9]+)?`.  Without fraction and
exponent the result is a Python `int`; otherwise a `float` carrying the
matched lexeme (CPython converts it with `float()`; the lexeme is enough
here because the program never computes with, prints, or keys on a float
in any claim). -/
def parseNumber (cs : List Char) : Option (PyVal × List Char) :=
  let signNeg : Bool := match cs with
    | c :: _ => c = '-'
    | [] => false
  let cs1 := if signNeg then cs.tail else cs
  match cs1 with
  | [] => none
  | c :: _ =>
    if ¬ isDigit c then none
    else
      let intDigits := if c = '0' then [c] else cs1.takeWhile isDigit
      let cs2 := if c = '0' then cs1.tail else cs1.dropWhile isDigit
      let fracDigits : List Char :=
        match cs2 with
        | '.' :: d :: _ => if isDigit d then (cs2.tail).takeWhile isDigit else []
        | _ => []
      let cs3 := if fracDigits = [] then cs2 else (cs2.tail).dropWhile isDigit
      let expChars : List Char :=
        match cs3 with
        | e :: rest =>
          if e = 'e' ∨ e = 'E' then
            match rest with
            | s :: d :: _ =>
              if (s = '+' ∨ s = '-') ∧ isDigit d then
                e :: s :: (rest.tail).takeWhile isDigit
              else if isDigit s then e :: rest.takeWhile isDigit
              else []
            | [s] => if isDigit s then [e, s] else []
            | [] => []
          else []
        | [] => []
      let cs4 := cs3.drop expChars.length
      if fracDigits = [] ∧ expChars = [] then
        let n : Int := Int.ofNat (digitsToNat intDigits)
        some (.int (if signNeg then -n else n), cs2)
      else
        let lex := (if signNeg then "-" else "") ++ String.mk intDigits ++
          (if fracDigits = [] then "" else "." ++ String.mk fracDigits) ++
          String.mk expChars
        some (.float lex, cs4)

mutual

/-- One JSON value, at a position where whitespace is already skipped. -/
def parseValue (fuel : Nat) (cs : List Char) : Option (PyVal × List Char) :=
  match fuel with
  | 0 => none
  | fuel + 1 =>
    match cs with
    | [] => none
    | c :: rest =>
      if c = Char.ofNat 123 then
        match skipWs rest with
        | c2 :: rest2 =>
            if c2 = Char.ofNat 125 then some (.dict [], rest2)
            else parseMembers fuel (skipWs rest) []
        | [] => none
      else if c = '[' then
        match skipWs rest with
        | c2 :: rest2 =>
            if c2 = ']' then some (.list [], rest2)
            else parseElems fuel (skipWs rest) []
        | [] => none
      else if c = Char.ofNat 34 then
        (parseStringBody fuel rest).map (fun p => (.str (String.mk p.1), p.2))
      else if c = 't' then (matchLit ['r', 'u', 'e'] rest).map (fun r => (PyVal.bool true, r))
      else if c = 'f' then (matchLit ['a', 'l', 's', 'e'] rest).map (fun r => (PyVal.bool false, r))
      else if c = 'n' then (matchLit ['u', 'l', 'l'] rest).map (fun r => (PyVal.null, r))
      else if c = 'N' then (matchLit ['a', 'N'] rest).map (fun r => (PyVal.float "NaN", r))
      else if c = 'I' then
        (matchLit ['n', 'f', 'i', 'n', 'i', 't', 'y'] rest).map
          (fun r => (PyVal.float "Infinity", r))
      else if c = '-' then
        match matchLit ['I', 'n', 'f', 'i', 'n', 'i', 't', 'y'] rest with
        | some r => some (.float "-Infinity", r)
        | none => parseNumber cs
      else if isDigit c then parseNumber cs
      else none

/-- Object members, starting at a key; `acc` holds members parsed so far
with dict-assignment semantics for duplicate keys. -/
def parseMembers (fuel : Nat) (cs : List Char) (acc : List (String × PyVal)) :
    Option (PyVal × List Char) :=
  match fuel with
  | 0 => none
  | fuel + 1 =>
    match cs with
    | [] => none
    | c :: rest =>
      if c = Char.ofNat 34 then
        match parseStringBody fuel rest with
        | none => none
        | some (keyChars, cs2) =>
          match skipWs cs2 with
          | c2 :: cs3 =>
            if c2 = ':' then
              match parseValue fuel (skipWs cs3) with
              | none => none
              | some (v, cs4) =>
                let acc' := dictInsert acc (String.mk keyChars) v
                match skipWs cs4 with
                | c3 :: cs5 =>
                    if c3 = ',' then parseMembers fuel (skipWs cs5) acc'
                    else if c3 = Char.ofNat 125 then some (.dict acc', cs5)
                    else none
                | [] => none
            else none
          | [] => none
      else none

/-- Array elements, starting at a value. -/
def parseElems (fuel : Nat) (cs : List Char) (acc : List PyVal) :
    Option (PyVal × List Char) :=
  match fuel with
  | 0 => none
  | fuel + 1 =>
    match parseValue fuel cs with
    | none => none
    | some (v, cs2) =>
      match skipWs cs2 with
      | c :: cs3 =>
          if c = ',' then parseElems fuel (skipWs cs3) (acc ++ [v])
          else if c = ']' then some (.list (acc ++ [v]), cs3)
          else none
      | [] => none

end

/-- `json.loads` on a `str`: parse one value, allowing surrounding
whitespace, and reject trailing input.  `none` models `JSONDecodeError`. -/
def jsonParse (s : String) : Option PyVal :=
  match parseValue (3 * s.data.length + 16) (skipWs s.data) with
  | some (v, rest) => if skipWs rest = [] then some v else none
  | none => none

/-! ### Python `str()` for f-string interpolation

`organize_logs_by_task` builds the group key with
`f"system\x7bsystem\x7d_task\x7btask_number\x7d"`, which applies `str()` to the two field
values.  `str` equals `repr` on every Python value except `str` itself.
The exotic corners (`repr` of a float, of a string needing quote
switching, of non-printable characters, of `bytes`) are approximated and
documented; no claim depends on them, and the spec itself declares key
construction for non-string, non-integer field values unspecified. -/

/-- One character inside a single-quoted Python `repr` of a string.
Approximation: CPython also hex-escapes non-printables and switches to
double quotes when the string contains `'` but no `"`. -/
def pyCharRepr (c : Char) : String :=
  if c = Char.ofNat 92 then String.mk [Char.ofNat 92, Char.ofNat 92]
  else if c = Char.ofNat 39 then String.mk [Char.ofNat 92, Char.ofNat 39]
  else if c.toNat = 10 then String.mk [Char.ofNat 92, 'n']
  else if c.toNat = 13 then String.mk [Char.ofNat 92, 'r']
  else if c.toNat = 9 then String.mk [Char.ofNat 92, 't']
  else String.mk [c]

def pyStrRepr (s : String) : String :=
  String.mk [Char.ofNat 39] ++ String.join (s.data.map pyCharRepr) ++
    String.mk [Char.ofNat 39]

/-- One byte inside a Python `repr` of `bytes`. -/
def pyByteRepr (b : Nat) : String :=
  if b = 92 ∨ b = 39 then String.mk [Char.ofNat 92, Char.ofNat b]
  else if 32 ≤ b ∧ b ≤ 126 then String.mk [Char.ofNat b]
  else String.mk [Char.ofNat 92, 'x', hexDigitChar (b / 16 % 16), hexDigitChar (b % 16)]

/-! Python `repr`. -/
mutual

def pyRepr : PyVal → String
  | .null => "None"
  | .bool b => if b then "True" else "False"
  | .int n => toString n
  | .float lex => lex
  | .str s => pyStrRepr s
  | .bytes bs =>
      "b" ++ String.mk [Char.ofNat 39] ++ String.join (bs.map pyByteRepr) ++
        String.mk [Char.ofNat 39]
  | .list xs => "[" ++ joinSep ", " (pyReprList xs) ++ "]"
  | .dict kvs =>
      String.mk [Char.ofNat 123] ++ joinSep ", " (pyReprKvs kvs) ++
        String.mk [Char.ofNat 125]

def pyReprList : List PyVal → List String
  | [] => []
  | v :: vs => pyRepr v :: pyReprList vs

def pyReprKvs : List (String × PyVal) → List String
  | [] => []
  | (k, v) :: kvs => (pyStrRepr k ++ ": " ++ pyRepr v) :: pyReprKvs kvs

end

/-- Python `str()`, as used by f-string interpolation. -/
def pyStr : PyVal → String
  | .str s => s
  | v => pyRepr v

/-! ### The store and `get_user_logs` (Log Reader + Event Decoder)

`get_user_logs` runs
`SELECT id, user_id, timestamp, message, event_data, created_at FROM
user_logs WHERE user_id = ? ORDER BY timestamp ASC`, then for each row
attempts `json.loads(event_data)`, catching only `json.JSONDecodeError`
and substituting `\x7b'raw': <original value>\x7d` on that error. -/

/-- A SQLite column value in its five storage classes.  REAL is carried
as a rational; its only role in this program is that `json.loads`
rejects it with `TypeError`. -/
inductive SqlValue : Type where
  | null : SqlValue
  | integer (n : Int) : SqlValue
  | real (q : Rat) : SqlValue
  | text (s : String) : SqlValue
  | blob (bs : List Nat) : SqlValue
  deriving DecidableEq

/-- One row of the `user_logs` table.  The non-`event_data` columns are
taken at the types the schema intends (`id` INTEGER, the rest TEXT);
`event_data` keeps its full storage-class freedom because the decoder's
behaviour depends on it. -/
structure Row where
  id : Int
  user_id : String
  timestamp : String
  message : String
  event_data : SqlValue
  created_at : String
  deriving DecidableEq

/-- The rows the store query returns: the rows whose `user_id` matches,
sorted ascending by `timestamp` (SQLite `ORDER BY ... ASC`; `sortBy` is
stable, matching SQLite's behaviour on equal timestamps for rows in table
order). -/
def queryRows (store : List Row) (uid : String) : List Row :=
  sortBy (fun a b => strLe a.timestamp b.timestamp)
    (store.filter (fun r => r.user_id = uid))

/-- Python exceptions this pipeline can raise past a handler. -/
inductive PyError : Type where
  | typeError : PyError
  | unicodeDecodeError : PyError
  | attributeError : PyError
  | serializationTypeError : PyError
  deriving DecidableEq

/-- Strict UTF-8 decoding of a byte list (CPython `bytes.decode`):
rejects continuation errors, overlong forms, surrogates, and values
above U+10FFFF. -/
def utf8Decode : List Nat → Option (List Char)
  | [] => some []
  | b :: bs =>
    if b < 128 then
      (utf8Decode bs).map (fun cs => Char.ofNat b :: cs)
    else if 194 ≤ b ∧ b ≤ 223 then
      match bs with
      | b2 :: bs2 =>
          if 128 ≤ b2 ∧ b2 ≤ 191 then
            (utf8Decode bs2).map
              (fun cs => Char.ofNat ((b - 194 + 2) * 64 + (b2 - 128)) :: cs)
          else none
      | [] => none
    else if 224 ≤ b ∧ b ≤ 239 then
      match bs with
      | b2 :: b3 :: bs3 =>
          if (if b = 224 then 160 ≤ b2 ∧ b2 ≤ 191
              else if b = 237 then 128 ≤ b2 ∧ b2 ≤ 159
              else 128 ≤ b2 ∧ b2 ≤ 191) ∧ 128 ≤ b3 ∧ b3 ≤ 191 then
            (utf8Decode bs3).map
              (fun cs =>
                Char.ofNat ((b - 224) * 4096 + (b2 - 128) * 64 + (b3 - 128)) :: cs)
          else none
      | _ => none
    else if 240 ≤ b ∧ b ≤ 244 then
      match bs with
      | b2 :: b3 :: b4 :: bs4 =>
          if (if b = 240 then 144 ≤ b2 ∧ b2 ≤ 191
              else if b = 244 then 128 ≤ b2 ∧ b2 ≤ 143
              else 128 ≤ b2 ∧ b2 ≤ 191) ∧
              128 ≤ b3 ∧ b3 ≤ 191 ∧ 128 ≤ b4 ∧ b4 ≤ 191 then
            (utf8Decode bs4).map
              (fun cs =>
                Char.ofNat
                  ((b - 240) * 262144 + (b2 - 128) * 4096 + (b3 - 128) * 64 +
                    (b4 - 128)) :: cs)
          else none
      | _ => none
    else none

/-- Result of `json.loads` on one `event_data` column value. -/
inductive LoadResult : Type where
  | ok (v : PyVal) : LoadResult
  | jsonDecodeError : LoadResult
  | uncaught (e : PyError) : LoadResult

/-- `json.loads(cell)`.  `json.loads` accepts `str`, `bytes` and
`bytearray` and raises `TypeError` on anything else — so a NULL, INTEGER
or REAL column raises `TypeError`, which the `except json.JSONDecodeError`
handler in `get_user_logs` does NOT catch.  A BLOB is decoded as UTF-8
first (CPython's `detect_encoding` heuristic reduces to UTF-8 absent a
BOM); invalid bytes raise `UnicodeDecodeError`, also uncaught. -/
def jsonLoadsCell : SqlValue → LoadResult
  | .text s =>
      match jsonParse s with
      | some v => .ok v
      | none => .jsonDecodeError
  | .blob bs =>
      match utf8Decode bs with
      | some cs =>
          match jsonParse (String.mk cs) with
          | some v => .ok v
          | none => .jsonDecodeError
      | none => .uncaught .unicodeDecodeError
  | .null => .uncaught .typeError
  | .integer _ => .uncaught .typeError
  | .real _ => .uncaught .typeError

/-- The Python value SQLite hands back for a column, used for the
fallback `\x7b'raw': <original value>\x7d`.  Only `text` and `blob` can reach the
fallback (everything else raised before it). -/
def rawCellVal : SqlValue → PyVal
  | .text s => .str s
  | .blob bs => .bytes bs
  | .null => .null
  | .integer n => .int n
  | .real _ => .float "0.0"

/-- A row after `get_user_logs`: `dict(row)` with `event_data` replaced
by its decoded value. -/
structure LogEntry where
  id : Int
  user_id : String
  timestamp : String
  message : String
  event_data : PyVal
  created_at : String

/-- The diagnostic `get_user_logs` prints when `event_data` fails to
decode (the Python message also appends the `JSONDecodeError` text after
the id). -/
def decodeWarning (rid : Int) : String :=
  "Warning: Could not parse event_data for log id " ++ toString rid

/-- Decoding of one fetched row: the `try/except json.JSONDecodeError`
block of `get_user_logs`, returning the produced entry and the warnings
printed, or the exception that propagates. -/
def decodeRow (r : Row) : Except PyError (LogEntry × List String) :=
  match jsonLoadsCell r.event_data with
  | .ok v =>
      .ok ({ id := r.id, user_id := r.user_id, timestamp := r.timestamp,
             message := r.message, event_data := v, created_at := r.created_at }, [])
  | .jsonDecodeError =>
      .ok ({ id := r.id, user_id := r.user_id, timestamp := r.timestamp,
             message := r.message,
             event_data := .dict [("raw", rawCellVal r.event_data)],
             created_at := r.created_at }, [decodeWarning r.id])
  | .uncaught e => .error e

/-- The row loop of `get_user_logs`: rows are decoded independently in
list order; an uncaught exception aborts the loop (and the run). -/
def decodeRows : List Row → Except PyError (List LogEntry × List String)
  | [] => .ok ([], [])
  | r :: rs =>
    match decodeRow r with
    | .error e => .error e
    | .ok (entry, ws) =>
      match decodeRows rs with
      | .error e => .error e
      | .ok (es, ws') => .ok (entry :: es, ws ++ ws')

/-- `get_user_logs(db_path, user_id)`: query then per-row decode. -/
def getUserLogs (store : List Row) (uid : String) :
    Except PyError (List LogEntry × List String) :=
  decodeRows (queryRows store uid)

/-! ### `organize_logs_by_task` (Task Grouper) -/

/-- The `clean_log` dict built for each record: the row's fields minus
`user_id`. -/
structure CleanLog where
  id : Int
  timestamp : String
  message : String
  event_data : PyVal
  created_at : String

def cleanOf (e : LogEntry) : CleanLog :=
  { id := e.id, timestamp := e.timestamp, message := e.message,
    event_data := e.event_data, created_at := e.created_at }

/-- `f"system\x7bsystem\x7d_task\x7btask_number\x7d"` where the two fields come from
`event_data.get(..., 'unknown')` — defined only when `event_data` is a
dict; on any other value `.get` raises `AttributeError` (`none`). -/
def keyOfPayload : PyVal → Option String
  | .dict kvs =>
      some ("system" ++ pyStr (dictGet kvs "system" (.str "unknown")) ++
        "_task" ++ pyStr (dictGet kvs "taskNumber" (.str "unknown")))
  | _ => none

/-- `organized[key].append(clean_log)` on a `defaultdict(list)`: append
to the group if the key exists (keeping the dict's insertion order),
else insert a new group at the end. -/
def addToGroup (groups : List (String × List CleanLog)) (k : String) (c : CleanLog) :
    List (String × List CleanLog) :=
  match groups with
  | [] => [(k, [c])]
  | (k', ls) :: rest =>
      if k' = k then (k', ls ++ [c]) :: rest
      else (k', ls) :: addToGroup rest k c

/-- The loop of `organize_logs_by_task` over the remaining entries. -/
def organizeGo (acc : List (String × List CleanLog)) :
    List LogEntry → Option (List (String × List CleanLog))
  | [] => some acc
  | e :: es =>
    match keyOfPayload e.event_data with
    | some k => organizeGo (addToGroup acc k (cleanOf e)) es
    | none => none

/-- `organize_logs_by_task(logs)`: an insertion-ordered mapping from
group key to member sequence; `none` models the `AttributeError` raised
when some entry's decoded `event_data` is not a dict. -/
def organizeLogsByTask (logs : List LogEntry) :
    Option (List (String × List CleanLog)) :=
  organizeGo [] logs

/-! ### `save_task_logs` (File Writer) -/

/-- The JSON value written for one `clean_log` (a Python dict literal,
keys in insertion order). -/
def cleanLogVal (c : CleanLog) : PyVal :=
  .dict [("id", .int c.id), ("timestamp", .str c.timestamp),
         ("message", .str c.message), ("event_data", c.event_data),
         ("created_at", .str c.created_at)]

/-- The `output_data` dict for one group. -/
def outputDataVal (uid k : String) (ls : List CleanLog) : PyVal :=
  .dict [("user_id", .str uid), ("task", .str k),
         ("log_count", .int (Int.ofNat ls.length)),
         ("logs", .list (ls.map cleanLogVal))]

/-- `json.dump(output_data, f)` or
`json.dump(output_data, f, indent=2, sort_keys=True)`. -/
def serializeOutput (pretty : Bool) (v : PyVal) : Option String :=
  if pretty then dumpsPretty 0 v else dumpsDefault v

/-- `str(output_path / filename)` on POSIX:
`<output_dir>/<user_id>/<user_id>_<task_key>.json`. -/
def filePathOf (outputDir uid k : String) : String :=
  outputDir ++ "/" ++ uid ++ "/" ++ uid ++ "_" ++ k ++ ".json"

/-- One written output file: its path, the group it came from, the
`log_count` field, the `logs` member sequence, and the byte content. -/
structure OutFile where
  path : String
  task : String
  logCount : Nat
  logs : List CleanLog
  content : String

/-- What `save_task_logs` would write for one group, when its
`output_data` is serializable. -/
def outFileOf (uid outputDir : String) (pretty : Bool)
    (g : String × List CleanLog) : Option OutFile :=
  (serializeOutput pretty (outputDataVal uid g.1 g.2)).map
    (fun content =>
      { path := filePathOf outputDir uid g.1, task := g.1,
        logCount := g.2.length, logs := g.2, content := content })

/-- The write loop of `save_task_logs` over already-sorted groups: files
written so far, plus the exception (if any) that aborted the loop.  On an
exception the earlier files remain written (no rollback). -/
def saveGo (uid outputDir : String) (pretty : Bool) :
    List (String × List CleanLog) → List OutFile × Option PyError
  | [] => ([], none)
  | g :: rest =>
    match outFileOf uid outputDir pretty g with
    | none => ([], some .serializationTypeError)
    | some f =>
      let r := saveGo uid outputDir pretty rest
      (f :: r.1, r.2)

/-- Key comparison for `sorted(task_logs.items())`. -/
def keyLeGroup (a b : String × List CleanLog) : Bool :=
  strLe a.1 b.1

/-- `save_task_logs(user_id, task_logs, output_dir, pretty)`: iterates
`sorted(task_logs.items())` — since the keys of a dict are distinct, the
tuple sort orders groups by key — writing one file per group.  The
returned `created_files` list is the paths of the written files in that
order. -/
def saveTaskLogs (uid : String) (taskLogs : List (String × List CleanLog))
    (outputDir : String) (pretty : Bool) : List OutFile × Option PyError :=
  saveGo uid outputDir pretty (sortBy keyLeGroup taskLogs)

/-! ### `print_summary` (Summary Reporter) -/

/-- `event_types[log['message']] += 1` on a `defaultdict(int)`: bump the
count in place if the message was seen, else append it with count 1. -/
def bumpHist (hist : List (String × Nat)) (m : String) : List (String × Nat) :=
  match hist with
  | [] => [(m, 1)]
  | (m', c) :: rest =>
      if m' = m then (m', c + 1) :: rest else (m', c) :: bumpHist rest m

/-- The message histogram accumulated over all groups in mapping order,
records in sequence order (the `for logs in task_logs.values(): for log
in logs` loops). -/
def buildHist (taskLogs : List (String × List CleanLog)) : List (String × Nat) :=
  (taskLogs.flatMap (fun g => g.2)).foldl (fun h c => bumpHist h c.message) []

/-- `sorted(event_types.items(), key=lambda x: x[1], reverse=True)`:
stable descending sort by count — on equal counts the first-encountered
message stays first. -/
def eventTypesSorted (taskLogs : List (String × List CleanLog)) : List (String × Nat) :=
  sortBy (fun a b => decide (b.2 ≤ a.2)) (buildHist taskLogs)

/-- The lines `print_summary` writes. -/
def summaryLines (uid : String) (taskLogs : List (String × List CleanLog)) :
    List String :=
  ["Summary for user " ++ uid,
   "Total logs: " ++ toString (taskLogs.map (fun g => g.2.length)).sum,
   "Unique task/system combinations: " ++ toString taskLogs.length] ++
  (sortBy (fun a b => strLe a b) (taskLogs.map (fun g => g.1))).map
    (fun k => "  " ++ k ++ ": " ++
      toString ((taskLogs.lookup k).getD []).length ++ " logs") ++
  (eventTypesSorted taskLogs).map
    (fun p => "  " ++ p.1 ++ ": " ++ toString p.2)

/-! ### `main` -/

/-- How a run ends: `sys.exit(code)` / falling off `main` (exit code 0),
or an uncaught exception (CPython exits with code 1 after a traceback). -/
inductive ExitStatus : Type where
  | normal (code : Nat) : ExitStatus
  | exception (e : PyError) : ExitStatus

/-- A whole run: how it exited, the output files it wrote, and the lines
it printed. -/
structure RunResult where
  exit : ExitStatus
  files : List OutFile
  stdout : List String

/-- `main()` for an existing database: query + decode, the empty-result
early exit, grouping, writing, and the summary.  (The `--db`-missing
branch, `sys.exit(1)` before any store access, is thin CLI glue outside
every claim but kept visible here via the `db` argument being printed.) -/
def runMain (db : String) (store : List Row) (uid outputDir : String)
    (pretty : Bool) : RunResult :=
  let header := ["Extracting logs for user: " ++ uid, "From database: " ++ db]
  match getUserLogs store uid with
  | .error e => { exit := .exception e, files := [], stdout := header }
  | .ok (entries, warns) =>
    if entries.isEmpty then
      { exit := .normal 0, files := [],
        stdout := header ++ warns ++ ["No logs found for user " ++ uid] }
    else
      match organizeLogsByTask entries with
      | none =>
          { exit := .exception .attributeError, files := [],
            stdout := header ++ warns ++
              ["Found " ++ toString entries.length ++ " total logs"] }
      | some groups =>
        match saveTaskLogs uid groups outputDir pretty with
        | (files, some e) =>
            { exit := .exception e, files := files,
              stdout := header ++ warns ++
                ["Found " ++ toString entries.length ++ " total logs"] ++
                files.map (fun f =>
                  "Created: " ++ f.path ++ " (" ++ toString f.logs.length ++ " logs)") }
        | (files, none) =>
            { exit := .normal 0, files := files,
              stdout := header ++ warns ++
                ["Found " ++ toString entries.length ++ " total logs"] ++
                files.map (fun f =>
                  "Created: " ++ f.path ++ " (" ++ toString f.logs.length ++ " logs)") ++
                summaryLines uid groups ++
                ["Successfully created " ++ toString files.length ++ " files in " ++
                  outputDir] }

/-! Histogram lemmas for the Summary Reporter. -/

/-- Count held by a histogram for a message (0 when absent): first-match
lookup in an association list whose keys are distinct. -/
def lookupCount (hist : List (String × Nat)) (m : String) : Nat :=
  match hist with
  | [] => 0
  | (m', c) :: rest => if m' = m then c else lookupCount rest m

/-- How many records of a sequence carry a given message. -/
def countMsg (ls : List CleanLog) (m : String) : Nat :=
  (ls.filter (fun c => c.message = m)).length

/-! ### Concrete rows for witnesses and counterexamples

`demoStore` is the spec's own concrete scenario: three rows for user `P1`,
two in task 1 and one in task 2 of system A. -/

def rowA1 : Row :=
  ⟨1, "P1", "2024-01-01T10:00:00", "task_start",
    .text "\x7b\"taskNumber\": 1, \"system\": \"A\"\x7d", "c1"⟩

def rowA2 : Row :=
  ⟨2, "P1", "2024-01-01T11:00:00", "click",
    .text "\x7b\"taskNumber\": 1, \"system\": \"A\"\x7d", "c2"⟩

def rowB : Row :=
  ⟨3, "P1", "2024-01-01T12:00:00", "task_start",
    .text "\x7b\"taskNumber\": 2, \"system\": \"A\"\x7d", "c3"⟩

def demoStore : List Row := [rowA1, rowA2, rowB]

/-- A row whose `event_data` text is not valid JSON. -/
def rowBad : Row := ⟨4, "P1", "2024-01-01T13:00:00", "oops", .text "not json", "c4"⟩

/-- A row whose `event_data` text is valid JSON but decodes to a list. -/
def rowList : Row := ⟨5, "P1", "2024-01-01T14:00:00", "weird", .text "[1, 2]", "c5"⟩

/-- A row whose `event_data` column is NULL. -/
def rowNull : Row := ⟨6, "P1", "2024-01-01T15:00:00", "nullrow", .null, "c6"⟩

/-- A row whose `event_data` column is a BLOB holding the UTF-8 bytes of
`\x7b"a": 1\x7d`. -/
def rowBlob : Row :=
  ⟨7, "P1", "2024-01-01T16:00:00", "blobrow",
    .blob [123, 34, 97, 34, 58, 32, 49, 125], "c7"⟩

/-- A row belonging to a different user. -/
def rowOther : Row :=
  ⟨8, "P2", "2024-01-01T17:00:00", "task_start",
    .text "\x7b\"taskNumber\": 1, \"system\": \"A\"\x7d", "c8"⟩

def demoClean1 : CleanLog :=
  ⟨1, "t1", "m1", .dict [("taskNumber", .int 1), ("system", .str "A")], "c1"⟩

def demoClean2 : CleanLog := ⟨3, "t3", "m2", .dict [], "c3"⟩

def demoGroupsA : List (String × List CleanLog) :=
  [("systemB_task2", [demoClean2]), ("systemA_task1", [demoClean1])]

def demoGroupsB : List (String × List CleanLog) :=
  [("systemA_task1", [demoClean1]), ("systemB_task2", [demoClean2])]

/-- The decoded entry for `rowList`: its payload is a JSON list. -/
def listEntry : LogEntry :=
  ⟨5, "P1", "2024-01-01T14:00:00", "weird", .list [.int 1, .int 2], "c5"⟩

/-- The entry `get_user_logs` builds when `event_data` text fails to
decode: the row's fields with the fallback payload. -/
def fallbackEntryOf (r : Row) (t : String) : LogEntry :=
  { id := r.id, user_id := r.user_id, timestamp := r.timestamp,
    message := r.message, event_data := .dict [("raw", .str t)],
    created_at := r.created_at }

/-- The decoded entries for `rowA1` and `rowB`. -/
def entryA1 : LogEntry :=
  ⟨1, "P1", "2024-01-01T10:00:00", "task_start",
    .dict [("taskNumber", .int 1), ("system", .str "A")], "c1"⟩

def entryB : LogEntry :=
  ⟨3, "P1", "2024-01-01T12:00:00", "task_start",
    .dict [("taskNumber", .int 2), ("system", .str "A")], "c3"⟩

/-! ### Theorems -/

theorem insertOrd_perm (le : α → α → Bool) (x : α) (l : List α) :
    List.Perm (insertOrd le x l) (x :: l) := by
  induction l with
  | nil => simp [insertOrd]
  | cons y ys ih =>
      simp only [insertOrd]
      split
      · exact List.Perm.refl _
      · exact (List.Perm.cons y ih).trans (List.Perm.swap x y ys)

theorem sortBy_perm (le : α → α → Bool) (l : List α) :
    List.Perm (sortBy le l) l := by
  induction l with
  | nil => simp [sortBy]
  | cons x xs ih =>
      exact (insertOrd_perm le x (sortBy le xs)).trans (List.Perm.cons x ih)

theorem mem_sortBy {le : α → α → Bool} {x : α} {l : List α} :
    x ∈ sortBy le l ↔ x ∈ l :=
  (sortBy_perm le l).mem_iff

theorem insertOrd_pairwise {le : α → α → Bool}
    (htot : ∀ a b, le a b = true ∨ le b a = true)
    (htrans : ∀ a b c, le a b = true → le b c = true → le a c = true)
    {x : α} {l : List α} (hl : l.Pairwise (fun a b => le a b = true)) :
    (insertOrd le x l).Pairwise (fun a b => le a b = true) := by
  induction l with
  | nil => simp [insertOrd]
  | cons y ys ih =>
      rw [List.pairwise_cons] at hl
      simp only [insertOrd]
      split
      · rename_i hxy
        refine List.pairwise_cons.mpr ⟨?_, List.pairwise_cons.mpr ⟨hl.1, hl.2⟩⟩
        intro b hb
        rcases List.mem_cons.mp hb with hb | hb
        · subst hb; exact hxy
        · exact htrans x y b hxy (hl.1 b hb)
      · rename_i hxy
        have hyx : le y x = true := by
          rcases htot x y with h | h
          · exact absurd h hxy
          · exact h
        refine List.pairwise_cons.mpr ⟨?_, ih hl.2⟩
        intro b hb
        rcases List.mem_cons.mp ((insertOrd_perm le x ys).mem_iff.mp hb) with hb' | hb'
        · subst hb'; exact hyx
        · exact hl.1 b hb'

theorem sortBy_pairwise {le : α → α → Bool}
    (htot : ∀ a b, le a b = true ∨ le b a = true)
    (htrans : ∀ a b c, le a b = true → le b c = true → le a c = true)
    (l : List α) : (sortBy le l).Pairwise (fun a b => le a b = true) := by
  induction l with
  | nil => simp [sortBy]
  | cons x xs ih =>
      simp only [sortBy]
      exact insertOrd_pairwise htot htrans ih

/-- A key-preserving map commutes with sorting-by-key. -/
theorem insertOrd_map {le : α → α → Bool} {le' : β → β → Bool} (f : α → β)
    (hf : ∀ a b, le' (f a) (f b) = le a b) (x : α) (l : List α) :
    insertOrd le' (f x) (l.map f) = (insertOrd le x l).map f := by
  induction l with
  | nil => simp [insertOrd]
  | cons y ys ih =>
      simp only [List.map_cons, insertOrd, hf]
      split
      · simp
      · simp [ih]

theorem sortBy_map {le : α → α → Bool} {le' : β → β → Bool} (f : α → β)
    (hf : ∀ a b, le' (f a) (f b) = le a b) (l : List α) :
    sortBy le' (l.map f) = (sortBy le l).map f := by
  induction l with
  | nil => simp [sortBy]
  | cons x xs ih =>
      simp only [List.map_cons, sortBy, ih]
      exact insertOrd_map f hf x (sortBy le xs)

theorem strLeChars_total : ∀ as bs : List Char,
    strLeChars as bs = true ∨ strLeChars bs as = true
  | [], _ => Or.inl rfl
  | _ :: _, [] => Or.inr rfl
  | a :: as, b :: bs => by
      rw [strLeChars, strLeChars]
      by_cases hab : a.toNat < b.toNat
      · left; rw [if_pos hab]
      · by_cases heq : a.toNat = b.toNat
        · rw [if_neg hab, if_pos heq, if_neg (by omega), if_pos heq.symm]
          exact strLeChars_total as bs
        · right
          rw [if_pos (by omega)]

theorem strLeChars_trans : ∀ as bs cs : List Char,
    strLeChars as bs = true → strLeChars bs cs = true → strLeChars as cs = true
  | [], _, _ => fun _ _ => rfl
  | _ :: _, [], _ => fun h _ => by rw [strLeChars] at h; cases h
  | _ :: _, _ :: _, [] => fun _ h => by rw [strLeChars] at h; cases h
  | a :: as, b :: bs, c :: cs => by
      rw [strLeChars, strLeChars, strLeChars]
      intro h1 h2
      by_cases hab : a.toNat < b.toNat
      · by_cases hbc : b.toNat < c.toNat
        · rw [if_pos (by omega)]
        · by_cases hbc' : b.toNat = c.toNat
          · rw [if_pos (by omega)]
          · rw [if_neg hbc, if_neg hbc'] at h2
            cases h2
      · by_cases hab' : a.toNat = b.toNat
        · by_cases hbc : b.toNat < c.toNat
          · rw [if_pos (by omega)]
          · by_cases hbc' : b.toNat = c.toNat
            · rw [if_neg (by omega), if_pos (by omega)]
              rw [if_neg hab, if_pos hab'] at h1
              rw [if_neg hbc, if_pos hbc'] at h2
              exact strLeChars_trans as bs cs h1 h2
            · rw [if_neg hbc, if_neg hbc'] at h2
              cases h2
        · rw [if_neg hab, if_neg hab'] at h1
          cases h1

theorem strLeChars_antisymm : ∀ as bs : List Char,
    strLeChars as bs = true → strLeChars bs as = true → as = bs
  | [], [] => fun _ _ => rfl
  | [], _ :: _ => fun _ h => by rw [strLeChars] at h; cases h
  | _ :: _, [] => fun h _ => by rw [strLeChars] at h; cases h
  | a :: as, b :: bs => by
      rw [strLeChars, strLeChars]
      intro h1 h2
      by_cases hab : a.toNat < b.toNat
      · rw [if_neg (by omega), if_neg (by omega)] at h2
        cases h2
      · by_cases hab' : a.toNat = b.toNat
        · rw [if_neg hab, if_pos hab'] at h1
          rw [if_neg (by omega), if_pos hab'.symm] at h2
          have hc : a = b := Char.ofNat_toNat a ▸ Char.ofNat_toNat b ▸ congrArg Char.ofNat hab'
          rw [hc, strLeChars_antisymm as bs h1 h2]
        · rw [if_neg hab, if_neg hab'] at h1
          cases h1

theorem strLe_total (a b : String) : strLe a b = true ∨ strLe b a = true :=
  strLeChars_total a.data b.data

theorem strLe_trans {a b c : String} (h1 : strLe a b = true)
    (h2 : strLe b c = true) : strLe a c = true :=
  strLeChars_trans a.data b.data c.data h1 h2

theorem strLe_antisymm {a b : String} (h1 : strLe a b = true)
    (h2 : strLe b a = true) : a = b := by
  have h := strLeChars_antisymm a.data b.data h1 h2
  cases a with
  | mk da => cases b with
    | mk db => cases h; rfl

theorem mem_joinSep_head {c : Char} {a : String} (sep : String) (as : List String)
    (h : c ∈ a.data) : c ∈ (joinSep sep (a :: as)).data := by
  cases as with
  | nil => simpa [joinSep] using h
  | cons b bs =>
      show c ∈ (a ++ sep ++ joinSep sep (b :: bs)).data
      simp only [show ∀ x y : String, (x ++ y).data = x.data ++ y.data from fun x y => rfl,
        List.mem_append]
      exact Or.inl (Or.inl h)

theorem sortBy_isEmpty (le : α → α → Bool) (l : List α) :
    (sortBy le l).isEmpty = l.isEmpty := by
  have h := (sortBy_perm le l).length_eq
  cases l with
  | nil => simp [sortBy]
  | cons x xs =>
      cases hs : sortBy le (x :: xs) with
      | nil => rw [hs] at h; simp at h
      | cons y ys => simp

theorem dumpsPrettyUnsortedKvs_eq_map (level : Nat) (l : List (String × PyVal)) :
    dumpsPrettyUnsortedKvs level l =
      l.map (fun p => (p.1, dumpsPrettyUnsorted level p.2)) := by
  induction l with
  | nil => rfl
  | cons p rest ih =>
      rcases p with ⟨k, v⟩
      rw [dumpsPrettyUnsortedKvs, List.map_cons, ih]

/-- Rendering members is key-preserving, so it commutes with the key
sort. -/
theorem dumpsPrettyUnsortedKvs_sortBy (level : Nat) (l : List (String × PyVal)) :
    dumpsPrettyUnsortedKvs level (sortBy keyLe l) =
      sortBy (fun a b => strLe a.1 b.1) (dumpsPrettyUnsortedKvs level l) := by
  rw [dumpsPrettyUnsortedKvs_eq_map, dumpsPrettyUnsortedKvs_eq_map]
  exact (@sortBy_map (String × PyVal) (String × Option String) keyLe
    (fun a b => strLe a.1 b.1)
    (fun p => (p.1, dumpsPrettyUnsorted level p.2)) (fun a b => rfl) l).symm

theorem sortKeysList_isEmpty (xs : List PyVal) :
    (sortKeysList xs).isEmpty = xs.isEmpty := by
  cases xs <;> rfl

theorem sortKeysKvs_isEmpty (kvs : List (String × PyVal)) :
    (sortKeysKvs kvs).isEmpty = kvs.isEmpty := by
  cases kvs with
  | nil => rfl
  | cons p rest => rcases p with ⟨k, v⟩; rfl

/-! `sort_keys=True` sorts object keys at every nesting level: rendering a
value with the sorting pretty printer is the same as first recursively
key-sorting the value and then rendering it without any sorting. -/
mutual

theorem dumpsPretty_eq_unsorted :
    ∀ (v : PyVal) (level : Nat),
      dumpsPretty level v = dumpsPrettyUnsorted level (sortKeysRec v)
  | .null, _ => rfl
  | .bool _, _ => rfl
  | .int _, _ => rfl
  | .float _, _ => rfl
  | .str _, _ => rfl
  | .bytes _, _ => rfl
  | .list xs, level => by
      rw [dumpsPretty, sortKeysRec, dumpsPrettyUnsorted, sortKeysList_isEmpty,
        dumpsPrettyList_eq_unsorted xs (level + 1)]
  | .dict kvs, level => by
      rw [dumpsPretty, sortKeysRec, dumpsPrettyUnsorted]
      rw [sortBy_isEmpty, sortKeysKvs_isEmpty]
      rw [dumpsPrettyUnsortedKvs_sortBy, ← dumpsPrettyKvs_eq_unsorted kvs (level + 1)]

theorem dumpsPrettyList_eq_unsorted :
    ∀ (xs : List PyVal) (level : Nat),
      dumpsPrettyList level xs = dumpsPrettyUnsortedList level (sortKeysList xs)
  | [], _ => rfl
  | v :: vs, level => by
      rw [dumpsPrettyList, sortKeysList, dumpsPrettyUnsortedList,
        dumpsPretty_eq_unsorted v level, dumpsPrettyList_eq_unsorted vs level]

theorem dumpsPrettyKvs_eq_unsorted :
    ∀ (kvs : List (String × PyVal)) (level : Nat),
      dumpsPrettyKvs level kvs = dumpsPrettyUnsortedKvs level (sortKeysKvs kvs)
  | [], _ => rfl
  | (k, v) :: kvs, level => by
      rw [dumpsPrettyKvs, sortKeysKvs, dumpsPrettyUnsortedKvs,
        dumpsPretty_eq_unsorted v level, dumpsPrettyKvs_eq_unsorted kvs level]

end

/-! ### Supporting lemmas about the pipeline stages -/

theorem decodeRow_ok_fields {r : Row} {entry : LogEntry} {ws : List String}
    (h : decodeRow r = .ok (entry, ws)) :
    entry.id = r.id ∧ entry.user_id = r.user_id ∧ entry.timestamp = r.timestamp ∧
      entry.message = r.message ∧ entry.created_at = r.created_at := by
  unfold decodeRow at h
  cases hq : jsonLoadsCell r.event_data <;> rw [hq] at h
  · cases h; exact ⟨rfl, rfl, rfl, rfl, rfl⟩
  · cases h; exact ⟨rfl, rfl, rfl, rfl, rfl⟩
  · cases h

theorem decodeRows_cons_ok {r : Row} {rs : List Row} {entry : LogEntry}
    {ws1 : List String} {es : List LogEntry} {ws2 : List String}
    (hr : decodeRow r = .ok (entry, ws1)) (hrs : decodeRows rs = .ok (es, ws2)) :
    decodeRows (r :: rs) = .ok (entry :: es, ws1 ++ ws2) := by
  simp [decodeRows, hr, hrs]

theorem decodeRows_ok_split {r : Row} {rs : List Row} {es : List LogEntry}
    {ws : List String} (h : decodeRows (r :: rs) = .ok (es, ws)) :
    ∃ entry ws1 es' ws2, decodeRow r = .ok (entry, ws1) ∧
      decodeRows rs = .ok (es', ws2) ∧ es = entry :: es' ∧ ws = ws1 ++ ws2 := by
  rw [decodeRows] at h
  cases hr : decodeRow r with
  | error e => rw [hr] at h; cases h
  | ok p =>
      rcases p with ⟨entry, ws1⟩
      rw [hr] at h
      cases hrs : decodeRows rs with
      | error e => rw [hrs] at h; cases h
      | ok q =>
          rcases q with ⟨es', ws2⟩
          rw [hrs] at h
          cases h
          exact ⟨entry, ws1, es', ws2, rfl, rfl, rfl, rfl⟩

theorem decodeRows_ok_length {rows : List Row} {es : List LogEntry} {ws : List String}
    (h : decodeRows rows = .ok (es, ws)) : es.length = rows.length := by
  induction rows generalizing es ws with
  | nil => rw [decodeRows] at h; cases h; rfl
  | cons r rs ih =>
      obtain ⟨entry, ws1, es', ws2, hr, hrs, hes, hws⟩ := decodeRows_ok_split h
      subst hes
      simp [ih hrs]

theorem decodeRows_ok_timestamps {rows : List Row} {es : List LogEntry}
    {ws : List String} (h : decodeRows rows = .ok (es, ws)) :
    es.map (fun e => e.timestamp) = rows.map (fun r => r.timestamp) := by
  induction rows generalizing es ws with
  | nil => rw [decodeRows] at h; cases h; rfl
  | cons r rs ih =>
      obtain ⟨entry, ws1, es', ws2, hr, hrs, hes, hws⟩ := decodeRows_ok_split h
      subst hes
      simp only [List.map_cons]
      rw [(decodeRow_ok_fields hr).2.2.1, ih hrs]

theorem addToGroup_flatten_perm (acc : List (String × List CleanLog))
    (k : String) (c : CleanLog) :
    List.Perm ((addToGroup acc k c).flatMap (fun g => g.2))
      (acc.flatMap (fun g => g.2) ++ [c]) := by
  induction acc with
  | nil => simp [addToGroup]
  | cons g rest ih =>
      rcases g with ⟨k', ls⟩
      simp only [addToGroup]
      split
      · simp only [List.flatMap_cons, List.append_assoc]
        exact List.Perm.append_left ls List.perm_append_comm
      · simp only [List.flatMap_cons, List.append_assoc]
        exact List.Perm.append_left ls ih

theorem organizeGo_flatten_perm {es : List LogEntry}
    {acc gs : List (String × List CleanLog)}
    (h : organizeGo acc es = some gs) :
    List.Perm (gs.flatMap (fun g => g.2))
      (acc.flatMap (fun g => g.2) ++ es.map cleanOf) := by
  induction es generalizing acc with
  | nil => rw [organizeGo] at h; cases h; simp
  | cons e es ih =>
      rw [organizeGo] at h
      cases hk : keyOfPayload e.event_data with
      | none => rw [hk] at h; cases h
      | some k =>
          rw [hk] at h
          refine (ih h).trans ?_
          rw [List.map_cons, ← List.singleton_append, ← List.append_assoc]
          exact List.Perm.append_right _ (addToGroup_flatten_perm acc k (cleanOf e))

theorem outFileOf_some_fields {uid outputDir : String} {pretty : Bool}
    {g : String × List CleanLog} {f : OutFile}
    (h : outFileOf uid outputDir pretty g = some f) :
    f.task = g.1 ∧ f.logs = g.2 ∧ f.logCount = g.2.length ∧
      f.path = filePathOf outputDir uid g.1 ∧
      serializeOutput pretty (outputDataVal uid g.1 g.2) = some f.content := by
  unfold outFileOf at h
  cases hs : serializeOutput pretty (outputDataVal uid g.1 g.2) with
  | none => rw [hs] at h; cases h
  | some content =>
      rw [hs] at h
      cases h
      exact ⟨rfl, rfl, rfl, rfl, rfl⟩

theorem saveGo_none_spec (uid outputDir : String) (pretty : Bool) :
    ∀ (gs : List (String × List CleanLog)) (files : List OutFile),
      saveGo uid outputDir pretty gs = (files, none) →
      files.map Option.some = gs.map (outFileOf uid outputDir pretty) ∧
      files.map (fun f => (f.task, f.logs)) = gs ∧
      ∀ f ∈ files, f.logCount = f.logs.length ∧
        f.path = filePathOf outputDir uid f.task
  | [], files => by
      intro h
      rw [saveGo] at h
      cases h
      exact ⟨rfl, rfl, fun f hf => absurd hf (List.not_mem_nil f)⟩
  | g :: rest, files => by
      intro h
      rw [saveGo] at h
      cases hg : outFileOf uid outputDir pretty g with
      | none =>
          rw [hg] at h
          exact absurd (congrArg Prod.snd h) (by simp)
      | some f =>
          rw [hg] at h
          have h1 : f :: (saveGo uid outputDir pretty rest).1 = files :=
            congrArg Prod.fst h
          have h2 : (saveGo uid outputDir pretty rest).2 = none :=
            congrArg Prod.snd h
          have hrec : saveGo uid outputDir pretty rest =
              ((saveGo uid outputDir pretty rest).1, none) := by
            rw [← h2]
          obtain ⟨ih1, ih2, ih3⟩ := saveGo_none_spec uid outputDir pretty rest
            (saveGo uid outputDir pretty rest).1 hrec
          obtain ⟨hft, hfl, hfc, hfp, hfs⟩ := outFileOf_some_fields hg
          subst h1
          refine ⟨?_, ?_, ?_⟩
          · simp only [List.map_cons, ih1, hg]
          · simp only [List.map_cons, ih2, hft, hfl]
          · intro f' hf'
            rcases List.mem_cons.mp hf' with hf' | hf'
            · subst hf'
              exact ⟨by rw [hfc, hfl], by rw [hfp, hft]⟩
            · exact ih3 f' hf'

theorem addToGroup_sublist {acc : List (String × List CleanLog)}
    {done : List CleanLog} (k : String) (c : CleanLog)
    (hacc : ∀ g ∈ acc, List.Sublist g.2 done) :
    ∀ g ∈ addToGroup acc k c, List.Sublist g.2 (done ++ [c]) := by
  induction acc with
  | nil =>
      intro g hg
      rw [addToGroup] at hg
      rcases List.mem_singleton.mp hg with rfl
      exact List.sublist_append_right done [c]
  | cons g0 rest ih =>
      rcases g0 with ⟨k', ls⟩
      intro g hg
      rw [addToGroup] at hg
      split at hg
      · rcases List.mem_cons.mp hg with rfl | hg
        · exact List.Sublist.append (hacc (k', ls) (List.mem_cons_self _ _))
            (List.Sublist.refl [c])
        · exact ((hacc g (List.mem_cons_of_mem _ hg)).trans
            (List.sublist_append_left done [c]))
      · rcases List.mem_cons.mp hg with rfl | hg
        · exact ((hacc (k', ls) (List.mem_cons_self _ _)).trans
            (List.sublist_append_left done [c]))
        · exact ih (fun g' hg' => hacc g' (List.mem_cons_of_mem _ hg')) g hg

theorem organizeGo_sublist {es : List LogEntry}
    {acc gs : List (String × List CleanLog)} {done : List CleanLog}
    (h : organizeGo acc es = some gs)
    (hacc : ∀ g ∈ acc, List.Sublist g.2 done) :
    ∀ g ∈ gs, List.Sublist g.2 (done ++ es.map cleanOf) := by
  induction es generalizing acc done with
  | nil =>
      rw [organizeGo] at h
      cases h
      intro g hg
      simpa using hacc g hg
  | cons e es ih =>
      rw [organizeGo] at h
      cases hk : keyOfPayload e.event_data with
      | none => rw [hk] at h; cases h
      | some k =>
          rw [hk] at h
          intro g hg
          have := ih h (addToGroup_sublist k (cleanOf e) hacc) g hg
          simpa [List.append_assoc] using this

/-- Sorting by key determines the list uniquely on permuted inputs with
distinct keys (the heart of run-to-run determinism of the File Writer). -/
theorem sortByKey_pairwise {β : Type} (l : List (String × β)) :
    (sortBy (fun a b => strLe a.1 b.1) l).Pairwise
      (fun a b => strLe a.1 b.1 = true) :=
  sortBy_pairwise (fun a b => strLe_total a.1 b.1)
    (fun a b c hab hbc => @strLe_trans a.1 b.1 c.1 hab hbc) l

theorem sortByKey_pairwise_strict {β : Type} {l : List (String × β)}
    (hnd : (l.map Prod.fst).Nodup) :
    (sortBy (fun a b => strLe a.1 b.1) l).Pairwise
      (fun a b => strLe a.1 b.1 = true ∧ a.1 ≠ b.1) := by
  have hle := sortByKey_pairwise l
  have hnd' : ((sortBy (fun a b : String × β => strLe a.1 b.1) l).map
      Prod.fst).Nodup :=
    (((sortBy_perm _ l).map Prod.fst).nodup_iff).mpr hnd
  have hne : (sortBy (fun a b : String × β => strLe a.1 b.1) l).Pairwise
      (fun a b => a.1 ≠ b.1) := by
    rw [List.Nodup, List.pairwise_map] at hnd'
    exact hnd'
  exact hle.and hne

theorem sortByKey_eq_of_perm {β : Type} {l₁ l₂ : List (String × β)}
    (hp : List.Perm l₁ l₂) (hnd : (l₁.map Prod.fst).Nodup) :
    sortBy (fun a b => strLe a.1 b.1) l₁ =
      sortBy (fun a b => strLe a.1 b.1) l₂ := by
  have hanti : IsAntisymm (String × β)
      (fun a b => strLe a.1 b.1 = true ∧ a.1 ≠ b.1) :=
    ⟨fun a b h1 h2 => absurd (strLe_antisymm h1.1 h2.1) h1.2⟩
  refine @List.eq_of_perm_of_sorted _
    (fun a b => strLe a.1 b.1 = true ∧ a.1 ≠ b.1) hanti _ _ ?_ ?_ ?_
  · exact (sortBy_perm _ l₁).trans (hp.trans (sortBy_perm _ l₂).symm)
  · exact sortByKey_pairwise_strict hnd
  · exact sortByKey_pairwise_strict ((hp.map Prod.fst).nodup_iff.mp hnd)

/-! Stability of `sortBy`: the elements of one tie class keep their
original relative order. -/

theorem insertOrd_filter_neg {le : α → α → Bool} {p : α → Bool} {x : α}
    (hx : p x = false) (l : List α) :
    (insertOrd le x l).filter p = l.filter p := by
  induction l with
  | nil => simp [insertOrd, hx]
  | cons y ys ih =>
      rw [insertOrd]
      split
      · simp [List.filter_cons, hx]
      · simp only [List.filter_cons]
        split <;> simp [ih]

theorem insertOrd_filter_pos {le : α → α → Bool} {p : α → Bool} {x : α}
    (hx : p x = true) (hmin : ∀ z, p z = true → le x z = true) (l : List α) :
    (insertOrd le x l).filter p = x :: l.filter p := by
  induction l with
  | nil => simp [insertOrd, hx]
  | cons y ys ih =>
      rw [insertOrd]
      split
      · simp [List.filter_cons, hx]
      · rename_i hxy
        have hy : p y = false := by
          cases hpy : p y with
          | false => rfl
          | true => exact absurd (hmin y hpy) hxy
        simp only [List.filter_cons, hy, if_neg]
        simpa [hy] using ih

theorem sortBy_filter_ties {le : α → α → Bool} {p : α → Bool}
    (hties : ∀ a b, p a = true → p b = true → le a b = true) (l : List α) :
    (sortBy le l).filter p = l.filter p := by
  induction l with
  | nil => simp [sortBy]
  | cons x xs ih =>
      rw [sortBy]
      cases hx : p x with
      | false => rw [insertOrd_filter_neg hx, ih]; simp [List.filter_cons, hx]
      | true =>
          rw [insertOrd_filter_pos hx (fun z hz => hties x z hx hz), ih]
          simp [List.filter_cons, hx]

theorem bumpHist_lookupCount (h : List (String × Nat)) (m m' : String) :
    lookupCount (bumpHist h m) m' =
      lookupCount h m' + (if m' = m then 1 else 0) := by
  induction h with
  | nil =>
      rw [bumpHist, lookupCount, lookupCount]
      by_cases hmm : m = m'
      · subst hmm; simp
      · have hmm' : ¬ m' = m := fun h' => hmm h'.symm
        rw [if_neg hmm, if_neg hmm', lookupCount]
  | cons g rest ih =>
      rcases g with ⟨m0, c⟩
      rw [bumpHist]
      split
      · rename_i h0
        subst h0
        rw [lookupCount, lookupCount]
        by_cases hm : m0 = m'
        · subst hm; simp
        · have hm' : ¬ m' = m0 := fun h' => hm h'.symm
          rw [if_neg hm, if_neg hm, if_neg hm']
          omega
      · rename_i h0
        rw [lookupCount, lookupCount]
        by_cases hm : m0 = m'
        · subst hm
          have hmm' : ¬ m0 = m := h0
          rw [if_pos rfl, if_pos rfl, if_neg hmm']
          omega
        · rw [if_neg hm, if_neg hm, ih]

theorem foldl_bumpHist_lookupCount (ls : List CleanLog) :
    ∀ (h : List (String × Nat)) (m : String),
      lookupCount (ls.foldl (fun acc c => bumpHist acc c.message) h) m =
        lookupCount h m + countMsg ls m := by
  induction ls with
  | nil => intro h m; simp [countMsg]
  | cons c cs ih =>
      intro h m
      rw [List.foldl_cons, ih, bumpHist_lookupCount]
      simp only [countMsg, List.filter_cons]
      by_cases hm : c.message = m
      · simp [hm]
        omega
      · have hm' : ¬ m = c.message := fun h' => hm h'.symm
        simp [hm, hm']

theorem bumpHist_keys_subset (h : List (String × Nat)) (m : String) :
    ∀ k ∈ (bumpHist h m).map Prod.fst, k ∈ h.map Prod.fst ∨ k = m := by
  induction h with
  | nil => intro k hk; simp [bumpHist] at hk; exact Or.inr hk
  | cons g rest ih =>
      rcases g with ⟨m0, c⟩
      intro k hk
      rw [bumpHist] at hk
      split at hk
      · simp only [List.map_cons, List.mem_cons] at hk ⊢
        tauto
      · simp only [List.map_cons, List.mem_cons] at hk ⊢
        rcases hk with rfl | hk
        · exact Or.inl (Or.inl rfl)
        · rcases ih k hk with h' | h'
          · exact Or.inl (Or.inr h')
          · exact Or.inr h'

theorem bumpHist_keys_nodup {h : List (String × Nat)} (m : String)
    (hnd : (h.map Prod.fst).Nodup) : ((bumpHist h m).map Prod.fst).Nodup := by
  induction h with
  | nil => simp [bumpHist]
  | cons g rest ih =>
      rcases g with ⟨m0, c⟩
      rw [bumpHist]
      split
      · exact hnd
      · rename_i h0
        simp only [List.map_cons, List.nodup_cons] at hnd ⊢
        refine ⟨?_, ih hnd.2⟩
        intro hmem
        rcases bumpHist_keys_subset rest m m0 hmem with h' | h'
        · exact hnd.1 h'
        · exact h0 h'

theorem foldl_bumpHist_keys_nodup (ls : List CleanLog) :
    ∀ (h : List (String × Nat)), (h.map Prod.fst).Nodup →
      ((ls.foldl (fun acc c => bumpHist acc c.message) h).map Prod.fst).Nodup := by
  induction ls with
  | nil => intro h hnd; exact hnd
  | cons c cs ih =>
      intro h hnd
      rw [List.foldl_cons]
      exact ih _ (bumpHist_keys_nodup c.message hnd)

theorem buildHist_lookupCount (taskLogs : List (String × List CleanLog)) (m : String) :
    lookupCount (buildHist taskLogs) m =
      countMsg (taskLogs.flatMap (fun g => g.2)) m := by
  rw [buildHist, foldl_bumpHist_lookupCount]
  rw [lookupCount]
  omega

theorem buildHist_keys_nodup (taskLogs : List (String × List CleanLog)) :
    ((buildHist taskLogs).map Prod.fst).Nodup := by
  rw [buildHist]
  exact foldl_bumpHist_keys_nodup _ [] (by simp)

theorem flatMapLength (f : α → List β) (l : List α) :
    (l.flatMap f).length = (l.map (fun x => (f x).length)).sum := by
  induction l with
  | nil => rfl
  | cons x xs ih => simp [ih]

theorem saveGo_mem {uid outputDir : String} {pretty : Bool} :
    ∀ {gs : List (String × List CleanLog)} {files : List OutFile}
      {err : Option PyError},
      saveGo uid outputDir pretty gs = (files, err) →
      ∀ f ∈ files, ∃ g ∈ gs, outFileOf uid outputDir pretty g = some f
  | [], files, err => by
      intro h f hf
      rw [saveGo] at h
      cases h
      exact absurd hf (List.not_mem_nil f)
  | g :: rest, files, err => by
      intro h f hf
      rw [saveGo] at h
      cases hg : outFileOf uid outputDir pretty g with
      | none =>
          rw [hg] at h
          have h1 : ([] : List OutFile) = files := congrArg Prod.fst h
          rw [← h1] at hf
          exact absurd hf (List.not_mem_nil f)
      | some f0 =>
          rw [hg] at h
          have h1 : f0 :: (saveGo uid outputDir pretty rest).1 = files :=
            congrArg Prod.fst h
          rw [← h1] at hf
          rcases List.mem_cons.mp hf with rfl | hf
          · exact ⟨g, List.mem_cons_self _ _, hg⟩
          · obtain ⟨g', hg', hout⟩ := @saveGo_mem uid outputDir pretty rest
              (saveGo uid outputDir pretty rest).1
              (saveGo uid outputDir pretty rest).2 rfl f hf
            exact ⟨g', List.mem_cons_of_mem _ hg', hout⟩

theorem decodeRows_append {xs ys : List Row} {es1 es2 : List LogEntry}
    {ws1 ws2 : List String} (hx : decodeRows xs = .ok (es1, ws1))
    (hy : decodeRows ys = .ok (es2, ws2)) :
    decodeRows (xs ++ ys) = .ok (es1 ++ es2, ws1 ++ ws2) := by
  induction xs generalizing es1 ws1 with
  | nil =>
      rw [decodeRows] at hx
      cases hx
      simpa using hy
  | cons r rs ih =>
      obtain ⟨entry, w1, es', w2, hr, hrs, rfl, rfl⟩ := decodeRows_ok_split hx
      rw [List.cons_append]
      rw [decodeRows_cons_ok hr (ih hrs)]
      simp

theorem decodeRows_mem_error {r : Row} {e0 : PyError}
    (hr : decodeRow r = .error e0) :
    ∀ pre post, ∃ e, decodeRows (pre ++ r :: post) = .error e := by
  intro pre post
  induction pre with
  | nil =>
      refine ⟨e0, ?_⟩
      rw [List.nil_append, decodeRows, hr]
  | cons q qs ih =>
      rw [List.cons_append, decodeRows]
      cases hq : decodeRow q with
      | error e1 => exact ⟨e1, rfl⟩
      | ok p =>
          obtain ⟨e, he⟩ := ih
          rw [he]
          exact ⟨e, rfl⟩

theorem seqOptions_cons_some {o : Option String} {os : List (Option String)}
    {parts : List String} (h : seqOptions (o :: os) = some parts) :
    ∃ p ps, o = some p ∧ seqOptions os = some ps ∧ parts = p :: ps := by
  cases o with
  | none => rw [seqOptions] at h; cases h
  | some s =>
      rw [seqOptions] at h
      cases hos : seqOptions os with
      | none => rw [hos] at h; cases h
      | some ps =>
          rw [hos] at h
          cases h
          exact ⟨s, ps, rfl, rfl, rfl⟩

/-- The default serialization of a nonempty dict contains a space (the
`': '` key separator). -/
theorem dumpsDefault_dict_space {k : String} {v : PyVal}
    {kvs : List (String × PyVal)} {s : String}
    (h : dumpsDefault (.dict ((k, v) :: kvs)) = some s) : ' ' ∈ s.data := by
  rw [dumpsDefault, dumpsDefaultKvs] at h
  cases hseq : seqOptions
      (((dumpsDefault v).map (fun s => encodeJsonString k ++ ": " ++ s)) ::
        dumpsDefaultKvs kvs) with
  | none => rw [hseq] at h; cases h
  | some parts =>
      rw [hseq] at h
      obtain ⟨p, ps, hp, hps, rfl⟩ := seqOptions_cons_some hseq
      cases h
      cases hv : dumpsDefault v with
      | none => rw [hv] at hp; cases hp
      | some sv =>
          rw [hv] at hp
          cases hp
          have hsp : ' ' ∈ (encodeJsonString k ++ ": " ++ sv).data := by
            simp only [show ∀ x y : String, (x ++ y).data = x.data ++ y.data from
              fun x y => rfl, List.mem_append]
            exact Or.inl (Or.inr (by decide))
          have hj := mem_joinSep_head ", " ps hsp
          simp only [show ∀ x y : String, (x ++ y).data = x.data ++ y.data from
            fun x y => rfl, List.mem_append]
          exact Or.inl (Or.inr hj)

/-- Anatomy of a run that exits normally with code 0: either the query
was empty (no files), or every stage succeeded and the files are exactly
what `save_task_logs` wrote for the grouping of the decoded entries. -/
theorem runMain_normal_anatomy {db : String} {store : List Row}
    {uid outputDir : String} {pretty : Bool} {files : List OutFile}
    {out : List String}
    (h : runMain db store uid outputDir pretty =
      { exit := .normal 0, files := files, stdout := out }) :
    ∃ entries warns, getUserLogs store uid = .ok (entries, warns) ∧
      ((entries = [] ∧ files = []) ∨
       (∃ groups, organizeLogsByTask entries = some groups ∧
         saveTaskLogs uid groups outputDir pretty = (files, none))) := by
  unfold runMain at h
  cases hq : getUserLogs store uid with
  | error e =>
      rw [hq] at h
      exact absurd (congrArg RunResult.exit h) (by simp)
  | ok p =>
      rcases p with ⟨entries, warns⟩
      rw [hq] at h
      dsimp only at h
      by_cases he : entries.isEmpty
      · rw [if_pos he] at h
        exact ⟨entries, warns, rfl,
          Or.inl ⟨List.isEmpty_iff.mp he, (congrArg RunResult.files h).symm⟩⟩
      · rw [if_neg he] at h
        cases ho : organizeLogsByTask entries with
        | none =>
            rw [ho] at h
            exact absurd (congrArg RunResult.exit h) (by simp)
        | some groups =>
            rw [ho] at h
            dsimp only at h
            cases hs : saveTaskLogs uid groups outputDir pretty with
            | mk files' err =>
                rw [hs] at h
                cases err with
                | some e =>
                    dsimp only at h
                    exact absurd (congrArg RunResult.exit h) (by simp)
                | none =>
                    dsimp only at h
                    have hf : files' = files := congrArg RunResult.files h
                    exact ⟨entries, warns, rfl,
                      Or.inr ⟨groups, ho, by rw [hs, hf]⟩⟩

/-! ### The claims -/

/-- C1 (claim as stated is refuted): a store row whose `event_data`
decodes to a JSON list makes `organize_logs_by_task` raise
`AttributeError` (`.get` on a non-dict), so the run aborts: the query
returned 1 record but zero output files exist, and the sum of
`log_count` over all output files (0) differs from the number of records
the query returned (1). -/
theorem C1_counterexample :
    (queryRows [rowList] "P1").length = 1 ∧
    (runMain "database.db" [rowList] "P1" "user_logs" false).files = [] ∧
    ((runMain "database.db" [rowList] "P1" "user_logs" false).files.map
        (fun f => f.logCount)).sum ≠ (queryRows [rowList] "P1").length ∧
    (runMain "database.db" [rowList] "P1" "user_logs" false).exit =
      ExitStatus.exception PyError.attributeError := by
  exact ⟨rfl, rfl, by decide, rfl⟩

/-- C1 (amended): for every run that terminates normally (exit code 0),
the sum of `log_count` over all output files equals the number of records
the store query returned, and the records in the output files are, as a
multiset, exactly the cleaned decoded records — every record is placed in
exactly one TaskGroup, none lost or duplicated.  (A run aborted by a
non-dict decoded payload writes no files and is not covered; see
`C1_counterexample`.) -/
theorem C1_amended (db : String) (store : List Row) (uid outputDir : String)
    (pretty : Bool) (files : List OutFile) (out : List String)
    (h : runMain db store uid outputDir pretty =
      { exit := .normal 0, files := files, stdout := out }) :
    (files.map (fun f => f.logCount)).sum = (queryRows store uid).length ∧
    (∀ entries warns, getUserLogs store uid = .ok (entries, warns) →
      List.Perm (files.flatMap (fun f => f.logs)) (entries.map cleanOf)) := by
  obtain ⟨entries, warns, hq, hcase⟩ := runMain_normal_anatomy h
  have hlen : entries.length = (queryRows store uid).length :=
    decodeRows_ok_length hq
  rcases hcase with ⟨rfl, rfl⟩ | ⟨groups, ho, hs⟩
  · constructor
    · simp only [List.map_nil, List.sum_nil]
      exact hlen
    · intro entries' warns' hq'
      rw [hq] at hq'
      cases hq'
      simp
  · obtain ⟨hmap, htl, hfields⟩ :=
      saveGo_none_spec uid outputDir pretty (sortBy keyLeGroup groups) files hs
    have hflat := @organizeGo_flatten_perm entries [] groups ho
    have hlogs : files.map (fun f => f.logs) =
        (sortBy keyLeGroup groups).map (fun g => g.2) := by
      have h2 := congrArg (List.map Prod.snd) htl
      simpa [List.map_map] using h2
    constructor
    · have h1 : files.map (fun f => f.logCount) = files.map (fun f => f.logs.length) :=
        List.map_congr_left (fun f hf => (hfields f hf).1)
      have h2 : files.map (fun f => f.logs.length) =
          (sortBy keyLeGroup groups).map (fun g => g.2.length) := by
        have h3 := congrArg (List.map List.length) hlogs
        simpa [List.map_map] using h3
      rw [h1, h2, ((sortBy_perm keyLeGroup groups).map _).sum_eq, ← flatMapLength,
        hflat.length_eq]
      simpa using hlen
    · intro entries' warns' hq'
      rw [hq] at hq'
      cases hq'
      have hfm : files.flatMap (fun f => f.logs) =
          (sortBy keyLeGroup groups).flatMap (fun g => g.2) := by
        rw [List.flatMap_def, List.flatMap_def, hlogs]
      rw [hfm]
      refine (List.Perm.flatMap_right (fun g => g.2)
        (sortBy_perm keyLeGroup groups)).trans ?_
      simpa using hflat

/-- C1 witness: on the spec's demo store the conservation equation holds
(3 records in, `log_count` 2 + 1 out). -/
theorem C1_witness :
    ((runMain "database.db" demoStore "P1" "user_logs" false).files.map
        (fun f => f.logCount)).sum = (queryRows demoStore "P1").length :=
  (C1_amended "database.db" demoStore "P1" "user_logs" false
    (runMain "database.db" demoStore "P1" "user_logs" false).files
    (runMain "database.db" demoStore "P1" "user_logs" false).stdout (by rfl)).1

/-- C9: when the store query returns zero rows for the requested user,
the run writes zero output files, prints the "No logs found" message, and
exits with code 0. -/
theorem C9_no_logs (db : String) (store : List Row) (uid outputDir : String)
    (pretty : Bool) (h : queryRows store uid = []) :
    runMain db store uid outputDir pretty =
      { exit := .normal 0, files := [],
        stdout := ["Extracting logs for user: " ++ uid, "From database: " ++ db,
                   "No logs found for user " ++ uid] } := by
  unfold runMain getUserLogs
  rw [h, decodeRows]
  simp

/-- C9 witness: a store holding only another user's row. -/
theorem C9_witness :
    runMain "database.db" [rowOther] "P1" "user_logs" false =
      { exit := .normal 0, files := [],
        stdout := ["Extracting logs for user: P1", "From database: database.db",
                   "No logs found for user P1"] } :=
  C9_no_logs "database.db" [rowOther] "P1" "user_logs" false (by rfl)

/-- C10 (claim as stated is refuted): `json.loads` also accepts `bytes`,
so a BLOB `event_data` column — a non-string value — does not raise: a
BLOB holding the UTF-8 bytes of `\x7b"a": 1\x7d` decodes successfully, the record
is kept with that payload, and the whole run completes normally. -/
theorem C10_counterexample :
    rowBlob.event_data = SqlValue.blob [123, 34, 97, 34, 58, 32, 49, 125] ∧
    jsonLoadsCell rowBlob.event_data = LoadResult.ok (.dict [("a", .int 1)]) ∧
    decodeRow rowBlob = .ok
      ({ id := 7, user_id := "P1", timestamp := "2024-01-01T16:00:00",
         message := "blobrow", event_data := .dict [("a", .int 1)],
         created_at := "c7" }, []) ∧
    (runMain "database.db" [rowBlob] "P1" "user_logs" false).exit =
      ExitStatus.normal 0 :=
  ⟨rfl, by rfl, by rfl, by rfl⟩

/-- C10 (amended): the decoder's recovery covers only `JSONDecodeError`
from a `str` or `bytes` payload.  For every row whose `event_data` is
neither TEXT nor BLOB (NULL, INTEGER or REAL), `json.loads` raises
`TypeError`, which the handler does not catch: the record gets no
fallback payload, and any run whose query result contains such a row
aborts with an uncaught exception and writes no files. -/
theorem C10_amended (r : Row)
    (htext : ∀ s, r.event_data ≠ SqlValue.text s)
    (hblob : ∀ bs, r.event_data ≠ SqlValue.blob bs) :
    decodeRow r = .error PyError.typeError ∧
    ∀ (db : String) (store : List Row) (uid outputDir : String) (pretty : Bool)
      (pre post : List Row), queryRows store uid = pre ++ r :: post →
      (∃ e, (runMain db store uid outputDir pretty).exit = ExitStatus.exception e) ∧
      (runMain db store uid outputDir pretty).files = [] := by
  have hdr : decodeRow r = .error PyError.typeError := by
    unfold decodeRow jsonLoadsCell
    cases hed : r.event_data with
    | text s => exact absurd hed (htext s)
    | blob bs => exact absurd hed (hblob bs)
    | null => rfl
    | integer n => rfl
    | real q => rfl
  refine ⟨hdr, ?_⟩
  intro db store uid outputDir pretty pre post hquery
  obtain ⟨e, he⟩ := decodeRows_mem_error hdr pre post
  constructor
  · exact ⟨e, by unfold runMain getUserLogs; rw [hquery, he]⟩
  · unfold runMain getUserLogs
    rw [hquery, he]

/-- C10 witness: a NULL `event_data` row aborts the whole run with no
files written. -/
theorem C10_witness :
    decodeRow rowNull = .error PyError.typeError ∧
    (∃ e, (runMain "database.db" [rowNull] "P1" "user_logs" false).exit =
      ExitStatus.exception e) ∧
    (runMain "database.db" [rowNull] "P1" "user_logs" false).files = [] := by
  obtain ⟨h1, h2⟩ := C10_amended rowNull (fun s h => by cases h) (fun bs h => by cases h)
  obtain ⟨h3, h4⟩ := h2 "database.db" [rowNull] "P1" "user_logs" false [] [] (by rfl)
  exact ⟨h1, h3, h4⟩

/-- C5: in every run that completes normally, each output file's `logs`
list is sorted ascending by timestamp whenever the Reader output was —
grouping (order-preserving append) and writing (whole-group copy)
preserve the relative order of records within each group. -/
theorem C5_sorted (db : String) (store : List Row) (uid outputDir : String)
    (pretty : Bool) (files : List OutFile) (out : List String)
    (h : runMain db store uid outputDir pretty =
      { exit := .normal 0, files := files, stdout := out })
    (hsorted : (queryRows store uid).Pairwise
      (fun a b => strLe a.timestamp b.timestamp = true)) :
    ∀ f ∈ files, f.logs.Pairwise
      (fun a b => strLe a.timestamp b.timestamp = true) := by
  obtain ⟨entries, warns, hq, hcase⟩ := runMain_normal_anatomy h
  rcases hcase with ⟨rfl, rfl⟩ | ⟨groups, ho, hs⟩
  · intro f hf
    exact absurd hf (List.not_mem_nil f)
  · intro f hf
    obtain ⟨hmap, htl, hfields⟩ :=
      saveGo_none_spec uid outputDir pretty (sortBy keyLeGroup groups) files hs
    have hmem : (f.task, f.logs) ∈ sortBy keyLeGroup groups := by
      rw [← htl]
      exact List.mem_map_of_mem _ hf
    have hmem' : (f.task, f.logs) ∈ groups := mem_sortBy.mp hmem
    have hsub : List.Sublist f.logs (entries.map cleanOf) := by
      have hsub' := @organizeGo_sublist entries [] groups [] ho
        (fun g hg => absurd hg (List.not_mem_nil g)) (f.task, f.logs) hmem'
      simpa using hsub'
    have h1 : ((queryRows store uid).map (fun r => r.timestamp)).Pairwise
        (fun a b => strLe a b = true) := List.pairwise_map.mpr hsorted
    rw [← decodeRows_ok_timestamps hq] at h1
    have h2 : entries.Pairwise (fun a b => strLe a.timestamp b.timestamp = true) :=
      List.pairwise_map.mp h1
    have h3 : (entries.map cleanOf).Pairwise
        (fun a b => strLe a.timestamp b.timestamp = true) :=
      List.pairwise_map.mpr h2
    exact h3.sublist hsub

/-- C5 witness: the demo run's files all have timestamp-sorted logs. -/
theorem C5_witness :
    List.Forall
      (fun f => f.logs.Pairwise (fun a b => strLe a.timestamp b.timestamp = true))
      (runMain "database.db" demoStore "P1" "user_logs" false).files :=
  List.forall_iff_forall_mem.mpr
    (C5_sorted "database.db" demoStore "P1" "user_logs" false
      (runMain "database.db" demoStore "P1" "user_logs" false).files
      (runMain "database.db" demoStore "P1" "user_logs" false).stdout
      (by rfl) (by decide))

/-- C6: the File Writer's output — the full list of (path, byte content)
pairs, in order — is a function of the TaskGroup mapping alone, not of
the insertion order of its association-list representation: permuting the
groups (with the distinct keys a dict guarantees) leaves every written
path and byte identical.  Together with the rest of the pipeline being a
pure function of the store contents, user id and flags, re-running with
identical inputs produces byte-identical output files. -/
theorem C6_deterministic (uid outputDir : String) (pretty : Bool)
    (g1 g2 : List (String × List CleanLog))
    (hperm : List.Perm g1 g2) (hnd : (g1.map Prod.fst).Nodup) :
    saveTaskLogs uid g1 outputDir pretty = saveTaskLogs uid g2 outputDir pretty := by
  unfold saveTaskLogs
  have hsort : sortBy keyLeGroup g1 = sortBy keyLeGroup g2 :=
    sortByKey_eq_of_perm hperm hnd
  rw [hsort]

/-- C6 witness: two permuted representations of the same two-group
mapping produce identical writer output. -/
theorem C6_witness :
    saveTaskLogs "P1" demoGroupsA "user_logs" false =
      saveTaskLogs "P1" demoGroupsB "user_logs" false :=
  C6_deterministic "P1" "user_logs" false demoGroupsA demoGroupsB
    (List.Perm.swap ("systemA_task1", [demoClean1])
      ("systemB_task2", [demoClean2]) []) (by decide)

/-- C7: `save_task_logs` processes the groups in lexicographic order of
group key; each group becomes one file at
`<output_dir>/<user_id>/<user_id>_<group_key>.json` whose content is the
serialization of `\x7buser_id, task: group_key, log_count: member count,
logs: member sequence\x7d` (see `outFileOf`/`outputDataVal`); the returned
path list follows that same lexicographic key order.  The `Nodup`
hypothesis records that a Python dict's keys are distinct (which is what
makes `sorted(task_logs.items())` order groups by key). -/
theorem C7_writer (uid outputDir : String) (pretty : Bool)
    (taskLogs : List (String × List CleanLog)) (files : List OutFile)
    (hnd : (taskLogs.map Prod.fst).Nodup)
    (h : saveTaskLogs uid taskLogs outputDir pretty = (files, none)) :
    files.map Option.some =
      (sortBy keyLeGroup taskLogs).map (outFileOf uid outputDir pretty) ∧
    files.map (fun f => f.path) =
      (sortBy keyLeGroup taskLogs).map (fun g => filePathOf outputDir uid g.1) ∧
    (files.map (fun f => f.task)).Pairwise (fun a b => strLe a b = true) ∧
    List.Perm (sortBy keyLeGroup taskLogs) taskLogs ∧
    ∀ f ∈ files, f.logCount = f.logs.length ∧
      f.path = filePathOf outputDir uid f.task ∧
      serializeOutput pretty (outputDataVal uid f.task f.logs) = some f.content := by
  obtain ⟨hmap, htl, hfields⟩ :=
    saveGo_none_spec uid outputDir pretty (sortBy keyLeGroup taskLogs) files h
  have htask : files.map (fun f => f.task) =
      (sortBy keyLeGroup taskLogs).map Prod.fst := by
    have h2 := congrArg (List.map Prod.fst) htl
    simpa [List.map_map] using h2
  refine ⟨hmap, ?_, ?_, sortBy_perm keyLeGroup taskLogs, ?_⟩
  · have h1 : files.map (fun f => f.path) =
        files.map (fun f => filePathOf outputDir uid f.task) :=
      List.map_congr_left (fun f hf => (hfields f hf).2)
    rw [h1]
    have h2 := congrArg (List.map (fun p : String × List CleanLog =>
      filePathOf outputDir uid p.1)) htl
    simpa [List.map_map] using h2
  · rw [htask]
    exact List.pairwise_map.mpr (sortByKey_pairwise taskLogs)
  · intro f hf
    obtain ⟨g, hg, hout⟩ := saveGo_mem h f hf
    obtain ⟨hft, hfl, hfc, hfp, hfs⟩ := outFileOf_some_fields hout
    refine ⟨by rw [hfc, hfl], by rw [hfp, hft], ?_⟩
    rw [hft, hfl]
    exact hfs

/-- C7 witness: on a concrete two-group mapping given in unsorted order,
the returned paths follow the lexicographic key order. -/
theorem C7_witness :
    ((saveTaskLogs "P1" demoGroupsA "user_logs" false).1.map (fun f => f.path)) =
      (sortBy keyLeGroup demoGroupsA).map
        (fun g => filePathOf "user_logs" "P1" g.1) :=
  (C7_writer "P1" "user_logs" false demoGroupsA
    (saveTaskLogs "P1" demoGroupsA "user_logs" false).1 (by decide) (by rfl)).2.1

/-- C2 (claim as stated is refuted): with the formatting flag unset the
File Writer calls `json.dump` with default arguments, whose separators
are `', '` and `': '` — the output is NOT whitespace-free: the file
written for a concrete one-record group contains a space after every
colon and comma. -/
theorem C2_counterexample :
    ((saveTaskLogs "P1" [("systemA_task1", [demoClean1])] "user_logs" false).1.map
        (fun f => f.content)) =
      ["\x7b\"user_id\": \"P1\", \"task\": \"systemA_task1\", \"log_count\": 1, \"logs\": [\x7b\"id\": 1, \"timestamp\": \"t1\", \"message\": \"m1\", \"event_data\": \x7b\"taskNumber\": 1, \"system\": \"A\"\x7d, \"created_at\": \"c1\"\x7d]\x7d"] ∧
    ' ' ∈ ("\x7b\"user_id\": \"P1\", \"task\": \"systemA_task1\", \"log_count\": 1, \"logs\": [\x7b\"id\": 1, \"timestamp\": \"t1\", \"message\": \"m1\", \"event_data\": \x7b\"taskNumber\": 1, \"system\": \"A\"\x7d, \"created_at\": \"c1\"\x7d]\x7d" : String).data :=
  ⟨by rfl, by decide⟩

/-- C2 (amended): every written file's content is the `json.dump`
serialization of its output object — default mode (flag unset) is
single-line with separators `', '` and `': '`, hence always contains
whitespace (a space after each colon and comma), not "no whitespace";
pretty mode (flag set) is `indent=2, sort_keys=True`, which sorts object
keys at every nesting level — rendering with the sorting printer equals
pre-sorting every object (`sortKeysRec`) and rendering without sorting —
and indents each nesting level by two more spaces (`nspaces (2 * (level
+ 1))` in `dumpsPretty`). -/
theorem C2_serialization :
    (∀ (uid : String) (taskLogs : List (String × List CleanLog))
       (outputDir : String) (pretty : Bool) (files : List OutFile)
       (err : Option PyError),
       saveTaskLogs uid taskLogs outputDir pretty = (files, err) →
       ∀ f ∈ files,
         serializeOutput pretty (outputDataVal uid f.task f.logs) = some f.content) ∧
    (∀ (uid : String) (taskLogs : List (String × List CleanLog))
       (outputDir : String) (files : List OutFile) (err : Option PyError),
       saveTaskLogs uid taskLogs outputDir false = (files, err) →
       ∀ f ∈ files, ' ' ∈ f.content.data) ∧
    (∀ (v : PyVal) (level : Nat),
       dumpsPretty level v = dumpsPrettyUnsorted level (sortKeysRec v)) := by
  refine ⟨?_, ?_, dumpsPretty_eq_unsorted⟩
  · intro uid tl dir pretty files err h f hf
    obtain ⟨g, hg, hout⟩ := saveGo_mem h f hf
    obtain ⟨hft, hfl, h3, h4, hfs⟩ := outFileOf_some_fields hout
    rw [hft, hfl]
    exact hfs
  · intro uid tl dir files err h f hf
    obtain ⟨g, hg, hout⟩ := saveGo_mem h f hf
    obtain ⟨hft, hfl, h3, h4, hfs⟩ := outFileOf_some_fields hout
    exact dumpsDefault_dict_space (hfs : dumpsDefault (outputDataVal uid g.1 g.2) = some f.content)

/-- C2 witness: every file of a concrete default-mode save contains a
space. -/
theorem C2_witness :
    List.Forall (fun f => ' ' ∈ f.content.data)
      (saveTaskLogs "P1" demoGroupsA "user_logs" false).1 :=
  List.forall_iff_forall_mem.mpr
    (C2_serialization.2.1 "P1" demoGroupsA "user_logs"
      (saveTaskLogs "P1" demoGroupsA "user_logs" false).1
      (saveTaskLogs "P1" demoGroupsA "user_logs" false).2 (by rfl))

/-- C3 (claim as stated is refuted): a record whose decoded payload is
not a mapping (here the JSON list `[1, 2]`) is NOT grouped under
`systemunknown_taskunknown`: `.get` on a non-dict raises
`AttributeError`, `organize_logs_by_task` is not total, and the run
aborts. -/
theorem C3_counterexample :
    jsonParse "[1, 2]" = some (.list [.int 1, .int 2]) ∧
    decodeRow rowList = .ok (listEntry, []) ∧
    keyOfPayload (PyVal.list [.int 1, .int 2]) = none ∧
    organizeLogsByTask [listEntry] = none ∧
    (runMain "database.db" [rowList] "P1" "user_logs" false).exit =
      ExitStatus.exception PyError.attributeError :=
  ⟨by rfl, by rfl, rfl, by rfl, by rfl⟩

/-- C3 (amended): when the decoded payload IS a mapping in which both
fields are absent — in particular the decode fallback `\x7b"raw": ...\x7d` —
both resolve to `"unknown"` and the record keys to
`systemunknown_taskunknown` without raising; but on every non-mapping
decoded payload the Task Grouper raises `AttributeError` instead of
substituting `"unknown"`. -/
theorem C3_amended :
    (∀ kvs : List (String × PyVal), kvs.lookup "system" = none →
       kvs.lookup "taskNumber" = none →
       keyOfPayload (.dict kvs) = some "systemunknown_taskunknown") ∧
    (∀ t : String,
       keyOfPayload (.dict [("raw", .str t)]) = some "systemunknown_taskunknown") ∧
    (∀ v : PyVal, (∀ kvs, v ≠ .dict kvs) → keyOfPayload v = none) := by
  have h1 : ∀ kvs : List (String × PyVal), kvs.lookup "system" = none →
      kvs.lookup "taskNumber" = none →
      keyOfPayload (.dict kvs) = some "systemunknown_taskunknown" := by
    intro kvs hsys htask
    show some ("system" ++ pyStr (dictGet kvs "system" (.str "unknown")) ++
      "_task" ++ pyStr (dictGet kvs "taskNumber" (.str "unknown"))) = _
    rw [dictGet, dictGet, hsys, htask]
    rfl
  refine ⟨h1, ?_, ?_⟩
  · intro t
    exact h1 [("raw", .str t)] rfl rfl
  · intro v hv
    cases v with
    | dict kvs => exact absurd rfl (hv kvs)
    | null => rfl
    | bool b => rfl
    | int n => rfl
    | float lex => rfl
    | str s => rfl
    | bytes bs => rfl
    | list xs => rfl

/-- C3 witness: the decode-fallback payload groups under
`systemunknown_taskunknown`. -/
theorem C3_witness :
    keyOfPayload (.dict [("raw", .str "oops")]) =
      some "systemunknown_taskunknown" :=
  C3_amended.1 [("raw", .str "oops")] rfl rfl

/-- C4: a record whose `event_data` text fails to decode does not fail
the pipeline: the decoder emits a diagnostic naming the record id,
substitutes `\x7b"raw": <original text>\x7d` as the decoded value, and keeps the
record; decoding is per-record in list order — whatever well-decoding
rows precede or follow, they are decoded exactly as they would be
without the malformed record, which lands in place between them. -/
theorem C4_decoder (pre post : List Row) (r : Row) (t : String)
    (hed : r.event_data = .text t) (hparse : jsonParse t = none)
    (e1 e2 : List LogEntry) (w1 w2 : List String)
    (hpre : decodeRows pre = .ok (e1, w1)) (hpost : decodeRows post = .ok (e2, w2)) :
    decodeRow r = .ok (fallbackEntryOf r t, [decodeWarning r.id]) ∧
    (fallbackEntryOf r t).event_data = .dict [("raw", .str t)] ∧
    decodeRows (pre ++ r :: post) =
      .ok (e1 ++ fallbackEntryOf r t :: e2, w1 ++ decodeWarning r.id :: w2) := by
  have hdr : decodeRow r = .ok (fallbackEntryOf r t, [decodeWarning r.id]) := by
    unfold decodeRow jsonLoadsCell
    rw [hed]
    dsimp only
    rw [hparse]
    rfl
  refine ⟨hdr, rfl, ?_⟩
  have hrpost : decodeRows (r :: post) =
      .ok (fallbackEntryOf r t :: e2, [decodeWarning r.id] ++ w2) :=
    decodeRows_cons_ok hdr hpost
  have happ := decodeRows_append hpre hrpost
  simpa using happ

/-- C4 witness: a malformed row between two good rows is kept with the
fallback payload and a diagnostic naming its id, and both neighbours are
extracted untouched. -/
theorem C4_witness :
    decodeRows ([rowA1] ++ rowBad :: [rowB]) =
      .ok ([entryA1, fallbackEntryOf rowBad "not json", entryB],
        [decodeWarning 4]) := by
  have h := C4_decoder [rowA1] [rowB] rowBad "not json" rfl (by rfl)
    [entryA1] [entryB] [] [] (by rfl) (by rfl)
  simpa using h.2.2

/-- C8: the Summary Reporter's histogram counts records per distinct
`message` value over all groups (`lookupCount`/`countMsg`), each message
appearing once; the displayed list is a permutation of it sorted by
descending count, and within one count value (a tie class) the displayed
order is exactly the histogram's first-encounter order (the filters
agree). -/
theorem C8_histogram (taskLogs : List (String × List CleanLog)) :
    (∀ m, lookupCount (buildHist taskLogs) m =
      countMsg (taskLogs.flatMap (fun g => g.2)) m) ∧
    ((buildHist taskLogs).map Prod.fst).Nodup ∧
    List.Perm (eventTypesSorted taskLogs) (buildHist taskLogs) ∧
    (eventTypesSorted taskLogs).Pairwise (fun a b => b.2 ≤ a.2) ∧
    ∀ c, (eventTypesSorted taskLogs).filter (fun p => p.2 = c) =
      (buildHist taskLogs).filter (fun p => p.2 = c) := by
  refine ⟨buildHist_lookupCount taskLogs, buildHist_keys_nodup taskLogs,
    sortBy_perm _ _, ?_, ?_⟩
  · have hp := @sortBy_pairwise (String × Nat) (fun a b => decide (b.2 ≤ a.2))
      (fun a b => by
        rcases Nat.le_total b.2 a.2 with h | h
        · exact Or.inl (decide_eq_true h)
        · exact Or.inr (decide_eq_true h))
      (fun a b c h1 h2 =>
        decide_eq_true (Nat.le_trans (of_decide_eq_true h2) (of_decide_eq_true h1)))
      (buildHist taskLogs)
    exact hp.imp (fun h => of_decide_eq_true h)
  · intro c
    exact sortBy_filter_ties
      (fun a b ha hb => by
        have ha' : a.2 = c := of_decide_eq_true ha
        have hb' : b.2 = c := of_decide_eq_true hb
        exact decide_eq_true (by rw [ha', hb'])) _

end ExtractLogs

